import Mathlib

/-!
# ComStudio telemetry pipeline: a shallow embedding

A verification development for the ComStudio line-oriented telemetry
pipeline.  The embedding follows the C++ sources:

* `src/ComStudio/src/core/LineParser.cpp` (`LineParser::parse`,
  `LineParser::processLine`, `LineParser::extractNumber`,
  `LineParser::splitLine`, `LineParser::testParse`,
  `LineParser::setTargetDisplayRate`, `LineParser::reset`),
* `src/ComStudio/include/core/GenericDataPacket.h` (`GenericDataPacket`,
  `addChannel`),
* `ParserConfig.h` (the configuration value object; the field
  `acceptSensorId` is typed as a string, following its use in
  `LineParser.cpp` and its description in the specification),
* `PlotterWidget.cpp` (`PlotterWidget::onUpdateTimer`, the LTTB and
  Min-Max downsampling blocks).

Modelling conventions:

* Qt strings and byte arrays are modelled as `List Char`.
* `double` values are modelled as `ℚ` (exact arithmetic); the numeric
  text-to-double conversions (`std::from_chars` and the Qt fallback) are
  modelled as exact decimal parsers producing `ℚ`.
* `QMap` is modelled as an association list kept sorted by key, matching
  QMap's in-order (sorted-by-key) enumeration.
* clock readings (`QElapsedTimer::elapsed`, `QDateTime::currentMSecsSinceEpoch`)
  are external inputs and are passed to the embedded functions as
  explicit arguments.
-/

namespace ComStudio

/-! ## String primitives (QString / QStringView operations) -/

/-- `QChar::isSpace` for the characters relevant here (ASCII whitespace). -/
def isSpaceChar (c : Char) : Bool :=
  c = ' ' || c = '\t' || c = '\n' || c = '\r' || c = '\x0b' || c = '\x0c'

/-- Remove leading whitespace. -/
def trimLeft (s : List Char) : List Char := s.dropWhile isSpaceChar

/-- `QStringView::trimmed`: remove leading and trailing whitespace. -/
def trimStr (s : List Char) : List Char :=
  ((s.dropWhile isSpaceChar).reverse.dropWhile isSpaceChar).reverse

/-- Lower-case a string character-wise (model of Qt case-insensitive
comparison via case folding). -/
def lowerStr (s : List Char) : List Char := s.map Char.toLower

/-- Case-insensitive string equality
(`QString::compare(..., Qt::CaseInsensitive) == 0`). -/
def ciEq (a b : List Char) : Bool := lowerStr a = lowerStr b

/-- Does `needle` occur at the front of `hay`? -/
def prefixEq : List Char → List Char → Bool
  | [], _ => true
  | _ :: _, [] => false
  | a :: as, b :: bs => a = b && prefixEq as bs

/-- `indexOf`: index of the first occurrence of `needle` in `hay`
(`none` when absent).  For an empty needle this returns `some 0`,
matching Qt. -/
def findSub : List Char → List Char → Option Nat
  | [], needle => if prefixEq needle [] then some 0 else none
  | c :: rest, needle =>
    if prefixEq needle (c :: rest) then some 0
    else (findSub rest needle).map (· + 1)

/-- Decimal digits of a natural number, most significant first. -/
def natToChars (n : Nat) : List Char :=
  (Nat.toDigits 10 n)

/-- Decimal rendering of an integer (for `QString::arg`). -/
def intToChars (i : Int) : List Char :=
  if i < 0 then '-' :: natToChars i.natAbs else natToChars i.natAbs

/-! ## Numeric extraction (model of the two-stage double parse)

`LineParser::extractNumber` first runs `std::from_chars` and falls back
to `QStringView::toDouble`.  Doubles are modelled as exact rationals:
both stages are modelled as an exact decimal parser
`[sign] digits [. digits] [ (e|E) [sign] digits ]`; the fallback stage
additionally accepts a leading `'+'`, which `std::from_chars` rejects. -/

/-- Parse a run of decimal digits; returns the value and the rest. -/
def parseDigits : List Char → Option (Nat × Nat × List Char)
  | [] => none
  | c :: rest =>
    if c.isDigit then
      match parseDigits rest with
      | some (v, k, rest') => some ((c.toNat - '0'.toNat) * 10 ^ k + v, k + 1, rest')
      | none => some (c.toNat - '0'.toNat, 1, rest)
    else none

/-- Parse the digits-with-optional-fraction-and-exponent body. -/
def parseBody (s : List Char) : Option ℚ :=
  match parseDigits s with
  | none => none
  | some (ip, _, rest) =>
    let contFrac : List Char → Option (ℚ × List Char) := fun r =>
      match r with
      | '.' :: r' =>
        match parseDigits r' with
        | some (fv, fk, r'') => some ((ip : ℚ) + (fv : ℚ) / (10 ^ fk : ℚ), r'')
        | none => none
      | _ => some ((ip : ℚ), r)
    match contFrac rest with
    | none => none
    | some (mant, r2) =>
      match r2 with
      | [] => some mant
      | e :: r3 =>
        if e = 'e' ∨ e = 'E' then
          let signed : List Char → Option (Bool × List Char) := fun r =>
            match r with
            | '-' :: r' => some (true, r')
            | '+' :: r' => some (false, r')
            | _ => some (false, r)
          match signed r3 with
          | none => none
          | some (neg, r4) =>
            match parseDigits r4 with
            | some (ev, _, []) =>
              some (if neg then mant / (10 ^ ev : ℚ) else mant * (10 ^ ev : ℚ))
            | _ => none
        else none

/-- One numeric-parse stage.  `allowPlus` distinguishes the Qt fallback
(accepts a leading `'+'`) from `std::from_chars` (does not). -/
def parseDecimal (allowPlus : Bool) (s : List Char) : Option ℚ :=
  match s with
  | '-' :: rest => (parseBody rest).map (fun q => -q)
  | '+' :: rest => if allowPlus then parseBody rest else none
  | _ => parseBody s

/-! ## Configuration and packet value objects -/

/-- `ParserConfig` (ParserConfig.h), with `acceptSensorId` a string as
used by `LineParser.cpp` and described in the specification.  Fields
not consumed by the parser itself (`xAxisSource`, `xAxisFieldIndex`)
are carried for the renderer and omitted here. -/
structure ParserConfig where
  delimiter : List Char
  idFieldIndex : Int
  acceptSensorId : List Char
  dataFields : List Int
  channelNames : List (List Char)
  stripLabels : Bool
  labelSeparator : Char
  trimWhitespace : Bool
  skipEmptyLines : Bool
  lineEnding : List Char
  maxLineLength : Int
  deriving Repr, DecidableEq

/-- `ParserConfig::csvDefault()`: the defaults of ParserConfig.h with a
comma delimiter and `stripLabels = false`. -/
def ParserConfig.csvDefault : ParserConfig :=
  { delimiter := [',']
    idFieldIndex := -1
    acceptSensorId := []
    dataFields := []
    channelNames := []
    stripLabels := false
    labelSeparator := ':'
    trimWhitespace := true
    skipEmptyLines := true
    lineEnding := ['\n']
    maxLineLength := 4096 }

/-- Lexicographic (UTF-16 code unit) order on strings, the order `QMap`
uses for `QString` keys. -/
def strLt : List Char → List Char → Bool
  | [], [] => false
  | [], _ :: _ => true
  | _ :: _, [] => false
  | a :: as, b :: bs =>
    if a.val < b.val then true
    else if b.val < a.val then false
    else strLt as bs

/-- `QMap<QString,double>::operator[]= `: insert or replace in a
key-sorted association list.  Enumeration of a `QMap` is in ascending
key order, which is the list order here. -/
def mapInsert (k : List Char) (v : ℚ) : List (List Char × ℚ) → List (List Char × ℚ)
  | [] => [(k, v)]
  | (k', v') :: rest =>
    if strLt k k' then (k, v) :: (k', v') :: rest
    else if k = k' then (k, v) :: rest
    else (k', v') :: mapInsert k v rest

/-- `GenericDataPacket` (GenericDataPacket.h).  `channels` is the QMap
in its enumeration (sorted-by-key) order; `sensorId` is a string,
following its assignment in `LineParser.cpp` (`packet.sensorId = idStr`)
and the specification. -/
structure GenericDataPacket where
  timestamp : Int
  packetIndex : Nat
  sensorId : List Char
  channels : List (List Char × ℚ)
  values : List ℚ
  rawData : List Char
  displayText : List Char
  isValid : Bool
  errorMessage : List Char
  deriving Repr, DecidableEq

/-- `GenericDataPacket::addChannel`: `channels[name] = value;
values.append(value);`. -/
def GenericDataPacket.addChannel (p : GenericDataPacket) (name : List Char) (v : ℚ) :
    GenericDataPacket :=
  { p with channels := mapInsert name v p.channels, values := p.values ++ [v] }

/-- `GenericDataPacket::hasData`: `!values.isEmpty()`. -/
def GenericDataPacket.hasData (p : GenericDataPacket) : Bool := p.values ≠ []

/-! ## `LineParser::splitLine` and `LineParser::extractNumber` -/

/-- The `while ((pos = line.indexOf(delimiter, start)) != -1)` loop of
`splitLine`, with fuel `line.length` (each iteration consumes at least
one character when the delimiter is non-empty, so the fuel is never
exhausted in that case). -/
def splitLoop (fuel : Nat) (line delim : List Char) : List (List Char) :=
  match fuel with
  | 0 => [line]
  | fuel + 1 =>
    match findSub line delim with
    | none => [line]
    | some pos =>
      line.take pos :: splitLoop fuel (line.drop (pos + delim.length)) delim

/-- `LineParser::splitLine`: empty line gives no tokens, empty
delimiter gives the whole line as a single token, otherwise split on
each occurrence of the delimiter. -/
def splitLine (line delim : List Char) : List (List Char) :=
  if line = [] then []
  else if delim = [] then [line]
  else splitLoop line.length line delim

/-- `LineParser::extractNumber`: optional label stripping, trim, then
`std::from_chars` with `QStringView::toDouble` as fallback. -/
def extractNumber (token : List Char) (config : ParserConfig) : Option ℚ :=
  if token = [] then none
  else
    let numPart :=
      if config.stripLabels then
        match findSub token [config.labelSeparator] with
        | some sepPos =>
          if sepPos + 1 < token.length then token.drop (sepPos + 1) else token
        | none => token
      else token
    let numPart := trimStr numPart
    if numPart = [] then none
    else
      match parseDecimal false numPart with
      | some v => some v
      | none => parseDecimal true numPart

/-! ## Sensor-ID matching (`LineParser::processLine`, lines 138–167) -/

/-- Is `c` a digit or a minus sign (the characters the ID-matching loop
keeps)? -/
def isDigitOrMinus (c : Char) : Bool := c.isDigit || c = '-'

/-- The `for (const QChar &c : ...)` loops building `idNumeric` and
`filterNumeric`: append each digit/minus character. -/
def numericPart (s : List Char) : List Char :=
  s.foldl (fun acc c => if isDigitOrMinus c then acc ++ [c] else acc) []

/-- The sensor-ID filter decision: case-insensitive exact match first,
else equality of the non-empty digit/minus character subsequences. -/
def matchesSensorId (idStr filter : List Char) : Bool :=
  if ciEq idStr filter then true
  else
    let idNumeric := numericPart idStr
    let filterNumeric := numericPart filter
    idNumeric ≠ [] && filterNumeric ≠ [] && idNumeric = filterNumeric

/-! ## Parser state and observable events

`LineParser`'s mutable members (`m_buffer`, `m_packetCounter`,
`m_lastEmitTimestamp`, the rate-limit settings) form the state; the Qt
signals (`rawLineReady`, `parseError`, `dataForLogging`, `dataParsed`)
become an event list. -/

structure ParserState where
  buffer : List Char
  packetCounter : Nat
  lastEmitTimestamp : Int
  rateLimitEnabled : Bool
  targetIntervalMs : ℚ
  targetDisplayRate : Int
  deriving Repr, DecidableEq

/-- The signals `LineParser` emits, in emission order. -/
inductive Event
  | rawLineReady (line : List Char)
  | parseError (msg : List Char) (raw : List Char)
  | dataForLogging (p : GenericDataPacket)
  | dataParsed (p : GenericDataPacket)
  deriving Repr, DecidableEq

/-- `LineParser::reset`: clear the buffer, zero the counter, clear the
rate-limiter baseline. -/
def resetState (st : ParserState) : ParserState :=
  { st with buffer := [], packetCounter := 0, lastEmitTimestamp := 0 }

/-- `LineParser::setConfig` stores the configuration and calls
`reset()`; its effect on the mutable state is exactly `resetState`. -/
def setConfigState (st : ParserState) : ParserState := resetState st

/-- `LineParser::setTargetDisplayRate`: interval `1000/hz` ms for a
positive rate, otherwise `0` (no rate limiting). -/
def setTargetDisplayRate (st : ParserState) (hz : Int) : ParserState :=
  { st with
    targetDisplayRate := hz
    targetIntervalMs := if hz > 0 then 1000 / (hz : ℚ) else 0 }

/-! ## The extraction loop of `processLine` (lines 172–218) -/

/-- Field selection: the explicit `dataFields` list if non-empty, else
every token index except the ID field. -/
def fieldsToExtract (cfg : ParserConfig) (numTokens : Nat) : List Int :=
  if cfg.dataFields = [] then
    ((List.range numTokens).map Int.ofNat).filter (fun i => i ≠ cfg.idFieldIndex)
  else cfg.dataFields

/-- Channel name for loop position `i`: `channelNames[i]` if present,
else `"Ch<i>"`. -/
def channelNameFor (cfg : ParserConfig) (i : Nat) : List Char :=
  cfg.channelNames.getD i ('C' :: 'h' :: natToChars i)

/-- `"Field index %1 out of range"`. -/
def outOfRangeMsg (fieldIdx : Int) : List Char :=
  "Field index ".toList ++ intToChars fieldIdx ++ " out of range".toList

/-- `"Failed to parse field %1: '%2'"`. -/
def parseFailMsg (fieldIdx : Int) (token : List Char) : List Char :=
  "Failed to parse field ".toList ++ intToChars fieldIdx ++ ": '".toList ++ token ++ "'".toList

/-- `"No tokens found"`. -/
def noTokensMsg : List Char := "No tokens found".toList

/-- One iteration of the value-extraction `for` loop: `i` is the loop
position, the second component is the token index `fieldIdx`. -/
def extractStep (cfg : ParserConfig) (tokens : List (List Char))
    (acc : GenericDataPacket × Bool) (ie : Nat × Int) : GenericDataPacket × Bool :=
  let pkt := acc.1
  let hasError := acc.2
  let i := ie.1
  let fieldIdx := ie.2
  if fieldIdx < 0 ∨ (tokens.length : Int) ≤ fieldIdx then
    ({ pkt with errorMessage := outOfRangeMsg fieldIdx }, true)
  else
    let token := tokens.getD fieldIdx.toNat []
    let token := if cfg.trimWhitespace then trimStr token else token
    match extractNumber token cfg with
    | some v => (pkt.addChannel (channelNameFor cfg i) v, hasError)
    | none => ({ pkt with errorMessage := parseFailMsg fieldIdx token }, true)

/-- The whole extraction loop over the selected fields. -/
def extractAll (cfg : ParserConfig) (tokens : List (List Char))
    (pkt0 : GenericDataPacket) : GenericDataPacket × Bool :=
  ((fieldsToExtract cfg tokens.length).enum).foldl (extractStep cfg tokens) (pkt0, false)

/-! ## The dual-rate emitter decision (lines 226–236) -/

/-- The display-path gate: emit when rate limiting is disabled or the
interval is `≤ 0`; otherwise emit when the baseline is the unset
sentinel `0` or at least the interval has elapsed, recording `now` as
the new baseline. -/
def displayGate (st : ParserState) (now : Int) : Bool × ParserState :=
  if st.rateLimitEnabled = false ∨ st.targetIntervalMs ≤ 0 then (true, st)
  else if st.lastEmitTimestamp = 0 ∨ ((now - st.lastEmitTimestamp : Int) : ℚ) ≥ st.targetIntervalMs then
    (true, { st with lastEmitTimestamp := now })
  else (false, st)

/-! ## `LineParser::processLine` -/

/-- Result of processing one framed line: the successor state, the
emitted signals, and a flag recording whether the silent sensor-ID
discard `return` (line 166 of LineParser.cpp) fired. -/
structure ProcessResult where
  state : ParserState
  events : List Event
  filtered : Bool
  deriving Repr, DecidableEq

/-- `LineParser::processLine`.  `now` is the `QElapsedTimer::elapsed()`
reading, `wall` the `QDateTime::currentMSecsSinceEpoch()` reading; both
are environment inputs. -/
def processLine (cfg : ParserConfig) (st : ParserState) (line : List Char)
    (now wall : Int) : ProcessResult :=
  let rawEvts := [Event.rawLineReady line]
  let pkt0 : GenericDataPacket :=
    { timestamp := wall
      packetIndex := st.packetCounter
      sensorId := []
      channels := []
      values := []
      rawData := line
      displayText := line
      isValid := false
      errorMessage := [] }
  let st := { st with packetCounter := st.packetCounter + 1 }
  let tokens := splitLine line cfg.delimiter
  if tokens = [] then
    { state := st, events := rawEvts ++ [Event.parseError noTokensMsg line], filtered := false }
  else
    let idInfo : Option (List Char) :=
      if 0 ≤ cfg.idFieldIndex ∧ cfg.idFieldIndex < (tokens.length : Int) then
        let idToken := tokens.getD cfg.idFieldIndex.toNat []
        some (if cfg.trimWhitespace then trimStr idToken else idToken)
      else none
    let pkt0 :=
      match idInfo with
      | some idStr => { pkt0 with sensorId := idStr }
      | none => pkt0
    let discard :=
      match idInfo with
      | some idStr => cfg.acceptSensorId ≠ [] && !matchesSensorId idStr cfg.acceptSensorId
      | none => false
    if discard then
      { state := st, events := rawEvts, filtered := true }
    else
      let ext := extractAll cfg tokens pkt0
      let hasError := ext.2
      let pkt := { ext.1 with isValid := ext.1.hasData && !hasError }
      if pkt.hasData then
        let gate := displayGate st now
        { state := gate.2
          events := rawEvts ++ [Event.dataForLogging pkt] ++
            (if gate.1 then [Event.dataParsed pkt] else [])
          filtered := false }
      else if hasError then
        { state := st, events := rawEvts ++ [Event.parseError pkt.errorMessage line], filtered := false }
      else
        { state := st, events := rawEvts, filtered := false }

/-! ## `LineParser::parse`: the line framer (lines 54–101) -/

/-- One outcome of the framing `while` loop: a terminated line that was
too long (discarded with `"Line too long, discarding"`), an empty line
skipped under `skipEmptyLines`, or a (possibly trimmed) line handed to
`processLine`. -/
inductive FrameOut
  | tooLong (l : List Char)
  | skipped (l : List Char)
  | line (l : List Char)
  deriving Repr, DecidableEq

/-- The `while ((pos = m_buffer.indexOf(lineEnding)) != -1)` loop.
Each iteration consumes `pos + lineEnding.length ≥ 1` characters when
the line ending is non-empty, so fuel `buf.length + 1` is never
exhausted in that case. -/
def frameLoop (cfg : ParserConfig) : Nat → List Char → List FrameOut × List Char
  | 0, buf => ([], buf)
  | fuel + 1, buf =>
    match findSub buf cfg.lineEnding with
    | none => ([], buf)
    | some pos =>
      if (pos : Int) > cfg.maxLineLength then
        let r := frameLoop cfg fuel (buf.drop (pos + cfg.lineEnding.length))
        (FrameOut.tooLong (buf.take pos) :: r.1, r.2)
      else
        let lineBytes := buf.take pos
        let buf' := buf.drop (pos + cfg.lineEnding.length)
        if lineBytes = [] ∧ cfg.skipEmptyLines then
          let r := frameLoop cfg fuel buf'
          (FrameOut.skipped lineBytes :: r.1, r.2)
        else
          let lv := if cfg.trimWhitespace then trimStr lineBytes else lineBytes
          if lv = [] ∧ cfg.skipEmptyLines then
            let r := frameLoop cfg fuel buf'
            (FrameOut.skipped lv :: r.1, r.2)
          else
            let r := frameLoop cfg fuel buf'
            (FrameOut.line lv :: r.1, r.2)

/-- Result of one `parse(data)` call at the framing level. `overflow`
holds the discarded unterminated buffer when the final
`"Buffer overflow, clearing"` check fired. -/
structure FrameResult where
  outs : List FrameOut
  overflow : Option (List Char)
  buffer : List Char
  deriving Repr, DecidableEq

/-- `LineParser::parse` restricted to framing: append `data` to the
buffer, extract terminated lines, then discard the whole remaining
buffer if it exceeds `maxLineLength`. -/
def frameStep (cfg : ParserConfig) (buffer data : List Char) : FrameResult :=
  let b := buffer ++ data
  let r := frameLoop cfg (b.length + 1) b
  if (r.2.length : Int) > cfg.maxLineLength then
    { outs := r.1, overflow := some r.2, buffer := [] }
  else
    { outs := r.1, overflow := none, buffer := r.2 }

/-! ## `LineParser::testParse` (lines 313–392) -/

/-- `ParseResult` (LineParser.h). -/
structure ParseResult where
  success : Bool
  errorMessage : List Char
  failedFieldIndex : Int
  values : List ℚ
  fieldTexts : List (List Char)
  originalLine : List Char
  deriving Repr, DecidableEq

/-- `"Field index %1 out of range (have %2 fields)"`. -/
def outOfRangeMsgT (fieldIdx : Int) (numTokens : Nat) : List Char :=
  "Field index ".toList ++ intToChars fieldIdx ++ " out of range (have ".toList ++
    natToChars numTokens ++ " fields)".toList

/-- One iteration of `testParse`'s extraction loop. -/
def testStep (cfg : ParserConfig) (tokens : List (List Char))
    (r : ParseResult) (fieldIdx : Int) : ParseResult :=
  if fieldIdx < 0 ∨ (tokens.length : Int) ≤ fieldIdx then
    { r with success := false
             errorMessage := outOfRangeMsgT fieldIdx tokens.length
             failedFieldIndex := fieldIdx }
  else
    let token := tokens.getD fieldIdx.toNat []
    let token := if cfg.trimWhitespace then trimStr token else token
    match extractNumber token cfg with
    | some v => { r with values := r.values ++ [v] }
    | none =>
      { r with success := false
               errorMessage := parseFailMsg fieldIdx token
               failedFieldIndex := fieldIdx }

/-- `LineParser::testParse`: a static function of the sample line and a
configuration; it touches no parser state. -/
def testParse (sampleLine : List Char) (cfg : ParserConfig) : ParseResult :=
  let r0 : ParseResult :=
    { success := false, errorMessage := [], failedFieldIndex := -1,
      values := [], fieldTexts := [], originalLine := sampleLine }
  let lineView := if cfg.trimWhitespace then trimStr sampleLine else sampleLine
  if lineView = [] then
    { r0 with errorMessage := "Empty line".toList }
  else
    let tokens := splitLine lineView cfg.delimiter
    if tokens = [] then
      { r0 with errorMessage := noTokensMsg }
    else
      let r1 := { r0 with fieldTexts := tokens, success := true }
      let r2 := (fieldsToExtract cfg tokens.length).foldl (testStep cfg tokens) r1
      if r2.success ∧ r2.values = [] then
        { r2 with success := false, errorMessage := "No numeric values extracted".toList }
      else r2

/-! ## Downsampling engine (`PlotterWidget::onUpdateTimer`)

The per-channel series is a pair of parallel lists `ts`/`vs`
(`ChannelData::timestamps` / `ChannelData::values`) of rationals
(exact models of the `double` data).  The point budget
`MAX_DISPLAY_POINTS` is the parameter `B`; downsampling runs when
`dataSize > B`.

The C++ computes `double bucketSize = (dataSize - 2) / numBuckets` and
bucket boundaries `1 + static_cast<int>(bucket * bucketSize)`.  With
exact arithmetic, `⌊b * ((n-2)/m)⌋ = b*(n-2) / m` (integer division),
which is the form used below; the lemma `bucketBound_eq_floor` records
that this equals the floor-of-rational formula. -/

/-- `static_cast<int>(bucket * bucketSize)` in exact arithmetic:
`b*(n-2) / m` with integer division (`m` the number of buckets). -/
def bucketBound (n m b : Nat) : Nat := b * (n - 2) / m

/-- The list of indices `[a, a+1, ..., b-1]` visited by a
`for (int i = a; i < b; ++i)` loop. -/
def idxRange (a b : Nat) : List Nat := (List.range (b - a)).map (a + ·)

/-! ### Min-Max bucketing (part_007 lines 343–399) -/

/-- Min-Max bucket start index: `1 + static_cast<int>(bucket * bucketSize)`
with `numBuckets = B / 2`. -/
def mmLo (n B b : Nat) : Nat := 1 + bucketBound n (B / 2) b

/-- Min-Max bucket end index:
`qMin(1 + static_cast<int>((bucket+1) * bucketSize), dataSize - 1)`. -/
def mmHi (n B b : Nat) : Nat := min (1 + bucketBound n (B / 2) (b + 1)) (n - 1)

/-- The min/max scan over a bucket: the `for (int i = startIdx + 1;
i < endIdx; ++i)` loop updating `(minIdx, minVal)` and
`(maxIdx, maxVal)` with strict comparisons. -/
def mmScan (vs : List ℚ) (idxs : List Nat) (acc : (Nat × ℚ) × (Nat × ℚ)) :
    (Nat × ℚ) × (Nat × ℚ) :=
  idxs.foldl (fun acc i =>
    let v := vs.getD i 0
    let mn := if v < acc.1.2 then (i, v) else acc.1
    let mx := if acc.2.2 < v then (i, v) else acc.2
    (mn, mx)) acc

/-- One Min-Max bucket's emitted indices: empty when
`startIdx >= endIdx` (`continue`), else the min and max indices in
chronological (index) order, one index only when they coincide. -/
def mmBucket (vs : List ℚ) (n B b : Nat) : List Nat :=
  let s := mmLo n B b
  let e := mmHi n B b
  if e ≤ s then []
  else
    let r := mmScan vs (idxRange (s + 1) e) ((s, vs.getD s 0), (s, vs.getD s 0))
    let minIdx := r.1.1
    let maxIdx := r.2.1
    if minIdx ≤ maxIdx then
      if minIdx = maxIdx then [minIdx] else [minIdx, maxIdx]
    else [maxIdx, minIdx]

/-- The Min-Max bucket loop over buckets `[0, m)`. -/
def mmGo (vs : List ℚ) (n B : Nat) : Nat → List Nat
  | 0 => []
  | m + 1 => mmGo vs n B m ++ mmBucket vs n B m

/-- All indices the Min-Max algorithm emits: the first point, the
per-bucket min/max points, and the last point. -/
def minMaxIndices (vs : List ℚ) (n B : Nat) : List Nat :=
  0 :: (mmGo vs n B (B / 2) ++ [n - 1])

/-- Min-Max downsampling of the series `(ts, vs)` with point budget `B`. -/
def minMaxDownsample (ts vs : List ℚ) (B : Nat) : List ℚ × List ℚ :=
  let idxs := minMaxIndices vs ts.length B
  (idxs.map (fun i => ts.getD i 0), idxs.map (fun i => vs.getD i 0))

/-! ### LTTB (part_007 lines 401–471) -/

/-- LTTB bucket start: `static_cast<int>(bucket * bucketSize) + 1`,
`bucketSize = (dataSize-2)/(MAX_DISPLAY_POINTS-2)`. -/
def ltLo (n B b : Nat) : Nat := bucketBound n (B - 2) b + 1

/-- LTTB bucket end: `qMin(static_cast<int>((bucket+1)*bucketSize) + 1,
dataSize - 1)`. -/
def ltHi (n B b : Nat) : Nat := min (bucketBound n (B - 2) (b + 1) + 1) (n - 1)

/-- End of the *next* bucket:
`qMin(static_cast<int>((bucket+2)*bucketSize) + 1, dataSize)`. -/
def ltNextHi (n B b : Nat) : Nat := min (bucketBound n (B - 2) (b + 2) + 1) n

/-- Arithmetic-mean point of the next bucket (vertex C); when the next
bucket is empty, the series' last point. -/
def lttbAvg (ts vs : List ℚ) (s e n : Nat) : ℚ × ℚ :=
  if s < e then
    ((((idxRange s e).map (fun i => ts.getD i 0)).sum) / ((e - s : Nat) : ℚ),
     (((idxRange s e).map (fun i => vs.getD i 0)).sum) / ((e - s : Nat) : ℚ))
  else (ts.getD (n - 1) 0, vs.getD (n - 1) 0)

/-- The shoelace-style absolute area term
`qAbs((ax - avgX) * (by - ay) - (ax - bx) * (avgY - ay))`. -/
def triArea (ax ay cx cy bx bv : ℚ) : ℚ :=
  |(ax - cx) * (bv - ay) - (ax - bx) * (cy - ay)|

/-- Select the in-bucket point maximizing the triangle area
(`maxArea = -1`, `maxAreaIdx = bucketStart`, strict improvement). -/
def lttbSelect (ts vs : List ℚ) (prev s e : Nat) (cx cy : ℚ) : Nat :=
  let ax := ts.getD prev 0
  let ay := vs.getD prev 0
  ((idxRange s e).foldl (fun acc i =>
    let area := triArea ax ay cx cy (ts.getD i 0) (vs.getD i 0)
    if acc.2 < area then (i, area) else acc) (s, (-1 : ℚ))).1

/-- The LTTB bucket loop over buckets `[0, m)`, carrying
`prevSelectedIdx` (initially `0`). -/
def lttbGo (ts vs : List ℚ) (n B : Nat) : Nat → List Nat × Nat
  | 0 => ([], 0)
  | m + 1 =>
    let acc := lttbGo ts vs n B m
    let s := ltLo n B m
    let e := ltHi n B m
    let c := lttbAvg ts vs e (ltNextHi n B m) n
    let sel := lttbSelect ts vs acc.2 s e c.1 c.2
    (acc.1 ++ [sel], sel)

/-- All indices the LTTB algorithm emits: first point, one selection
per bucket, last point. -/
def lttbIndices (ts vs : List ℚ) (n B : Nat) : List Nat :=
  0 :: ((lttbGo ts vs n B (B - 2)).1 ++ [n - 1])

/-- LTTB downsampling of the series `(ts, vs)` with point budget `B`. -/
def lttbDownsample (ts vs : List ℚ) (B : Nat) : List ℚ × List ℚ :=
  let idxs := lttbIndices ts vs ts.length B
  (idxs.map (fun i => ts.getD i 0), idxs.map (fun i => vs.getD i 0))

/-! ## Observation helpers over event lists -/

/-- The packets emitted on the logging output (`dataForLogging`). -/
def loggedPackets (evs : List Event) : List GenericDataPacket :=
  evs.filterMap (fun e => match e with | .dataForLogging p => some p | _ => none)

/-- The packets emitted on the display output (`dataParsed`). -/
def parsedPackets (evs : List Event) : List GenericDataPacket :=
  evs.filterMap (fun e => match e with | .dataParsed p => some p | _ => none)

/-- The reported errors (`parseError`). -/
def errorEvents (evs : List Event) : List (List Char × List Char) :=
  evs.filterMap (fun e => match e with | .parseError m r => some (m, r) | _ => none)

/-- All packet emissions (logging and display paths). -/
def packetsOf (evs : List Event) : List GenericDataPacket :=
  loggedPackets evs ++ parsedPackets evs

/-! ## Derived views of one line (read off `processLine`'s code path) -/

/-- The (trimmed) ID token of a line, as read at lines 128–134 of
LineParser.cpp.  Meaningful when `idFieldIndex` is within token
bounds. -/
def idTokenOf (cfg : ParserConfig) (line : List Char) : List Char :=
  let tokens := splitLine line cfg.delimiter
  let t := tokens.getD cfg.idFieldIndex.toNat []
  if cfg.trimWhitespace then trimStr t else t

/-- Does the silent sensor-ID discard fire for this line?  (The exact
condition guarding the `return` at line 166.) -/
def lineFiltered (cfg : ParserConfig) (line : List Char) : Bool :=
  let tokens := splitLine line cfg.delimiter
  if 0 ≤ cfg.idFieldIndex ∧ cfg.idFieldIndex < (tokens.length : Int) then
    cfg.acceptSensorId ≠ [] && !matchesSensorId (idTokenOf cfg line) cfg.acceptSensorId
  else false

/-- The sensor ID recorded in the packet: the (trimmed) ID token when
`idFieldIndex` is set and within token bounds, otherwise empty. -/
def sensorIdOf (cfg : ParserConfig) (line : List Char) : List Char :=
  if 0 ≤ cfg.idFieldIndex ∧
      cfg.idFieldIndex < ((splitLine line cfg.delimiter).length : Int) then
    idTokenOf cfg line
  else []

/-- A fresh packet for a line, before extraction (counter and clock
zeroed; extraction results do not depend on those fields). -/
def blankPacket (line : List Char) : GenericDataPacket :=
  { timestamp := 0, packetIndex := 0, sensorId := [], channels := [],
    values := [], rawData := line, displayText := line, isValid := false,
    errorMessage := [] }

/-- The packet as constructed at lines 109–135: raw line, counter
value, wall-clock timestamp and (possibly empty) sensor ID, before
extraction. -/
def freshPacket (cfg : ParserConfig) (line : List Char) (counter : Nat) (wall : Int) :
    GenericDataPacket :=
  { timestamp := wall, packetIndex := counter, sensorId := sensorIdOf cfg line,
    channels := [], values := [], rawData := line, displayText := line,
    isValid := false, errorMessage := [] }

/-- The packet `processLine` builds for a line (counter value and wall
clock supplied): extraction results over the fresh packet, with
`isValid = hasData && !hasError`. -/
def linePacket (cfg : ParserConfig) (line : List Char) (counter : Nat) (wall : Int) :
    GenericDataPacket :=
  let tokens := splitLine line cfg.delimiter
  let ext := extractAll cfg tokens (freshPacket cfg line counter wall)
  { ext.1 with isValid := ext.1.hasData && !ext.2 }

/-- Did extraction of this line produce at least one value
(`packet.hasData()` at line 222)? -/
def lineHasData (cfg : ParserConfig) (line : List Char) : Bool :=
  let tokens := splitLine line cfg.delimiter
  (extractAll cfg tokens (blankPacket line)).1.values ≠ []

/-- Did some selected field of this line fail (`hasError` at line 186)? -/
def lineHasErr (cfg : ParserConfig) (line : List Char) : Bool :=
  (extractAll cfg (splitLine line cfg.delimiter) (blankPacket line)).2

/-- Does this line produce an emitted packet (tokens exist, passes the
filter, at least one value extracted)? -/
def lineEmits (cfg : ParserConfig) (line : List Char) : Bool :=
  decide (splitLine line cfg.delimiter ≠ []) && !lineFiltered cfg line &&
    lineHasData cfg line

/-! ## Runs over several lines -/

/-- Process a list of framed lines in sequence; each item carries the
line together with its `elapsed`/wall clock readings. -/
def runLines (cfg : ParserConfig) (st : ParserState) :
    List (List Char × Int × Int) → ParserState × List Event
  | [] => (st, [])
  | (l, n, w) :: rest =>
    let r := processLine cfg st l n w
    let rr := runLines cfg r.state rest
    (rr.1, r.events ++ rr.2)

/-- Like `runLines` but keeping each line's events separate. -/
def runEvents (cfg : ParserConfig) (st : ParserState) :
    List (List Char × Int × Int) → List (List Event)
  | [] => []
  | (l, n, w) :: rest =>
    (processLine cfg st l n w).events ::
      runEvents cfg (processLine cfg st l n w).state rest

/-! ## Packet construction helper (for the `addChannel` claims) -/

/-- An empty packet (all containers empty). -/
def emptyPacket : GenericDataPacket := blankPacket []

/-- Fold a parse-ordered list of name/value pairs into a packet with
`addChannel`, as the extraction loop does. -/
def addChannels (p : GenericDataPacket) (pairs : List (List Char × ℚ)) :
    GenericDataPacket :=
  pairs.foldl (fun q nv => q.addChannel nv.1 nv.2) p

/-! ## Initial state and concrete fixtures -/

/-- The member initializers of LineParser.h: counter `0`, baseline `0`,
rate limiting enabled, interval `16.67` ms, target `60` Hz. -/
def initState : ParserState :=
  { buffer := [], packetCounter := 0, lastEmitTimestamp := 0,
    rateLimitEnabled := true, targetIntervalMs := (1667 : ℚ) / 100,
    targetDisplayRate := 60 }

/-- A state with rate limiting disabled (used for concrete runs whose
display decision is not under test). -/
def plainState : ParserState :=
  { buffer := [], packetCounter := 0, lastEmitTimestamp := 0,
    rateLimitEnabled := false, targetIntervalMs := 0,
    targetDisplayRate := 0 }

/-- A state with rate limiting enabled at a 50 ms interval
(`setTargetDisplayRate(20)`), baseline cleared. -/
def limitedState : ParserState :=
  { buffer := [], packetCounter := 0, lastEmitTimestamp := 0,
    rateLimitEnabled := true, targetIntervalMs := 50,
    targetDisplayRate := 20 }

/-- A CSV configuration with a tiny `maxLineLength` (3), for concrete
framing runs. -/
def cfgShort : ParserConfig := { ParserConfig.csvDefault with maxLineLength := 3 }

/-- CSV configuration naming the first two channels `"B"` then `"A"`. -/
def cfgBA : ParserConfig :=
  { ParserConfig.csvDefault with channelNames := ["B".toList, "A".toList] }

/-- CSV configuration naming both channels `"A"` (duplicate names). -/
def cfgAA : ParserConfig :=
  { ParserConfig.csvDefault with channelNames := ["A".toList, "A".toList] }

/-- Strict key order on channel entries (the `QMap` enumeration order). -/
def chanLt (a b : List Char × ℚ) : Prop := strLt a.1 b.1 = true

/-- A CSV configuration filtering on sensor ID `"2"` in field 0. -/
def cfgIdFilter : ParserConfig :=
  { ParserConfig.csvDefault with idFieldIndex := 0, acceptSensorId := ['2'] }

/-- The packet produced for line `"2,8"` as the second line (counter 1)
after a reset, under the default CSV configuration. -/
def samplePacket : GenericDataPacket :=
  { timestamp := 0, packetIndex := 1, sensorId := [],
    channels := [("Ch0".toList, 2), ("Ch1".toList, 8)], values := [2, 8],
    rawData := "2,8".toList, displayText := "2,8".toList, isValid := true,
    errorMessage := [] }

/-! ## Spec-side reference definitions

These follow the specification's/claims' words (not the code) and are
used only to compare the documented behaviour against the embedded
code. -/

/-- Modelled from the spec: "the longest contiguous run of
digits/minus-sign extracted from" a string (first such run on ties). -/
def longestDigitRun (s : List Char) : List Char :=
  (s.foldl (fun (acc : List Char × List Char) c =>
    if isDigitOrMinus c then
      let cur := acc.2 ++ [c]
      (if acc.1.length < cur.length then cur else acc.1, cur)
    else (acc.1, [])) ([], [])).1

/-- Modelled from the spec: the claimed display-gate rule — forward iff
rate limiting is disabled, the interval is ≤ 0, the baseline is unset
(first packet after reset), or at least the interval has elapsed since
the last display emission; on each display emission the current
elapsed time becomes the new baseline. -/
def specGate (enabled : Bool) (interval : ℚ) (baseline : Option Int) (now : Int) :
    Bool × Option Int :=
  if enabled = false ∨ interval ≤ 0 then (true, some now)
  else
    match baseline with
    | none => (true, some now)
    | some t =>
      if ((now - t : Int) : ℚ) ≥ interval then (true, some now)
      else (false, some t)

/-- The numeric value field `fieldIdx` yields for these tokens: `none`
when the index is out of bounds or the (trimmed) token fails numeric
extraction. -/
def fieldValue (cfg : ParserConfig) (tokens : List (List Char)) (fieldIdx : Int) : Option ℚ :=
  if fieldIdx < 0 ∨ (tokens.length : Int) ≤ fieldIdx then none
  else
    let token := tokens.getD fieldIdx.toNat []
    let token := if cfg.trimWhitespace then trimStr token else token
    extractNumber token cfg

/-- Does field `fieldIdx` fail for these tokens (out of bounds, or
numeric extraction fails on the trimmed token)? -/
def fieldFails (cfg : ParserConfig) (tokens : List (List Char)) (fieldIdx : Int) : Bool :=
  (fieldValue cfg tokens fieldIdx).isNone

/-- The line as `testParse` sees it (trimmed when configured). -/
def trimmedLine (cfg : ParserConfig) (line : List Char) : List Char :=
  if cfg.trimWhitespace then trimStr line else line

/-- The token list `testParse` works on. -/
def testTokens (cfg : ParserConfig) (line : List Char) : List (List Char) :=
  splitLine (trimmedLine cfg line) cfg.delimiter

/-- Modelled from the spec: "the index of the first failing field" for
a test parse (`-1` when no field fails). -/
def specFirstFailedIndex (sampleLine : List Char) (cfg : ParserConfig) : Int :=
  match (fieldsToExtract cfg (testTokens cfg sampleLine).length).filter
      (fieldFails cfg (testTokens cfg sampleLine)) with
  | [] => -1
  | x :: _ => x

/-- The last failing field of a test parse (`-1` when no field fails);
this is what the code's `failedFieldIndex` records. -/
def lastFailedIndex (sampleLine : List Char) (cfg : ParserConfig) : Int :=
  ((fieldsToExtract cfg (testTokens cfg sampleLine).length).filter
    (fieldFails cfg (testTokens cfg sampleLine))).getLastD (-1)

/-! # Theorems -/

/-! ## Shared structural lemmas about `processLine` -/

/-- Fold invariant preservation. -/
theorem foldl_invariant {α β : Type} (P : α → Prop) (f : α → β → α) (l : List β) (init : α)
    (h0 : P init) (hstep : ∀ a b, P a → b ∈ l → P (f a b)) : P (l.foldl f init) := by
  induction l generalizing init with
  | nil => exact h0
  | cons b l ih =>
    exact ih (f init b) (hstep init b h0 (List.mem_cons_self b l))
      (fun a c ha hc => hstep a c ha (List.mem_cons_of_mem b hc))

/-- The extraction loop's channels/values/error outputs depend only on
the accumulator's channels/values/error fields, not on the packet's
metadata. -/
theorem extractFold_rel (cfg : ParserConfig) (tokens : List (List Char)) :
    ∀ (l : List (Nat × Int)) (a b : GenericDataPacket × Bool),
      a.1.channels = b.1.channels → a.1.values = b.1.values →
      a.1.errorMessage = b.1.errorMessage → a.2 = b.2 →
      (l.foldl (extractStep cfg tokens) a).1.channels = (l.foldl (extractStep cfg tokens) b).1.channels ∧
      (l.foldl (extractStep cfg tokens) a).1.values = (l.foldl (extractStep cfg tokens) b).1.values ∧
      (l.foldl (extractStep cfg tokens) a).1.errorMessage = (l.foldl (extractStep cfg tokens) b).1.errorMessage ∧
      (l.foldl (extractStep cfg tokens) a).2 = (l.foldl (extractStep cfg tokens) b).2 := by
  intro l
  induction l with
  | nil => intro a b h1 h2 h3 h4; exact ⟨h1, h2, h3, h4⟩
  | cons x l ih =>
    intro a b h1 h2 h3 h4
    apply ih
    all_goals {
      simp only [extractStep]
      split
      · simp [h3, h4, h1, h2]
      · split <;> simp [GenericDataPacket.addChannel, h1, h2, h3, h4] }

/-- Specialization: extraction over the real fresh packet and over the
blank packet produce the same channels, values, error text and flag. -/
theorem extractAll_indep (cfg : ParserConfig) (tokens : List (List Char))
    (line : List Char) (counter : Nat) (wall : Int) :
    (extractAll cfg tokens (freshPacket cfg line counter wall)).1.channels =
        (extractAll cfg tokens (blankPacket line)).1.channels ∧
    (extractAll cfg tokens (freshPacket cfg line counter wall)).1.values =
        (extractAll cfg tokens (blankPacket line)).1.values ∧
    (extractAll cfg tokens (freshPacket cfg line counter wall)).1.errorMessage =
        (extractAll cfg tokens (blankPacket line)).1.errorMessage ∧
    (extractAll cfg tokens (freshPacket cfg line counter wall)).2 =
        (extractAll cfg tokens (blankPacket line)).2 :=
  extractFold_rel cfg tokens _ _ _ rfl rfl rfl rfl

/-- `lineHasErr` coincides with the error flag of the real extraction. -/
theorem lineHasErr_eq (cfg : ParserConfig) (line : List Char) (counter : Nat) (wall : Int) :
    lineHasErr cfg line =
      (extractAll cfg (splitLine line cfg.delimiter) (freshPacket cfg line counter wall)).2 :=
  ((extractAll_indep cfg (splitLine line cfg.delimiter) line counter wall).2.2.2).symm

/-- `linePacket`'s `hasData` coincides with `lineHasData`. -/
theorem linePacket_hasData (cfg : ParserConfig) (line : List Char) (counter : Nat) (wall : Int) :
    (linePacket cfg line counter wall).hasData = lineHasData cfg line := by
  simp only [linePacket, lineHasData, GenericDataPacket.hasData]
  exact congrArg (fun v : List ℚ => decide (v ≠ []))
    ((extractAll_indep cfg (splitLine line cfg.delimiter) line counter wall).2.1)

/-- Normal form of `processLine`: the framed line is either structurally
empty of tokens (error), silently filtered, emitted (logging always,
display behind the gate), failed with an error, or produced nothing. -/
theorem processLine_eq (cfg : ParserConfig) (st : ParserState) (line : List Char)
    (now wall : Int) :
    processLine cfg st line now wall =
      (let tokens := splitLine line cfg.delimiter
       let st' : ParserState := { st with packetCounter := st.packetCounter + 1 }
       if tokens = [] then
         { state := st',
           events := [Event.rawLineReady line, Event.parseError noTokensMsg line],
           filtered := false }
       else if lineFiltered cfg line then
         { state := st', events := [Event.rawLineReady line], filtered := true }
       else
         let pkt := linePacket cfg line st.packetCounter wall
         if pkt.hasData then
           let gate := displayGate st' now
           { state := gate.2,
             events := [Event.rawLineReady line, Event.dataForLogging pkt] ++
               (if gate.1 then [Event.dataParsed pkt] else []),
             filtered := false }
         else if lineHasErr cfg line then
           { state := st',
             events := [Event.rawLineReady line, Event.parseError pkt.errorMessage line],
             filtered := false }
         else
           { state := st', events := [Event.rawLineReady line], filtered := false }) := by
  rw [lineHasErr_eq cfg line st.packetCounter wall]
  simp only [processLine]
  by_cases htok : splitLine line cfg.delimiter = []
  · simp [htok]
  · simp only [htok, ite_false, if_neg htok]
    by_cases hid : 0 ≤ cfg.idFieldIndex ∧
        cfg.idFieldIndex < ((splitLine line cfg.delimiter).length : Int)
    · simp only [if_pos hid, lineFiltered, sensorIdOf, idTokenOf, linePacket, freshPacket]
      generalize (if cfg.trimWhitespace = true then
          trimStr ((splitLine line cfg.delimiter).getD cfg.idFieldIndex.toNat [])
        else (splitLine line cfg.delimiter).getD cfg.idFieldIndex.toNat []) = tok
      rfl
    · simp only [if_neg hid, lineFiltered, sensorIdOf, idTokenOf, linePacket, freshPacket]
      rfl

/-- The display gate does not touch the packet counter. -/
theorem displayGate_counter (st : ParserState) (now : Int) :
    (displayGate st now).2.packetCounter = st.packetCounter := by
  simp only [displayGate]
  split
  · rfl
  · split <;> rfl

/-- Each processed line advances the packet counter by exactly one. -/
theorem processLine_counter (cfg : ParserConfig) (st : ParserState) (line : List Char)
    (now wall : Int) :
    (processLine cfg st line now wall).state.packetCounter = st.packetCounter + 1 := by
  simp only [processLine_eq]
  split
  · rfl
  · split
    · rfl
    · split
      · exact displayGate_counter _ _
      · split <;> rfl

/-- Logged packets of an emission event list. -/
theorem loggedPackets_emit (line : List Char) (pkt : GenericDataPacket) (b : Bool) :
    loggedPackets ([Event.rawLineReady line, Event.dataForLogging pkt] ++
      (if b then [Event.dataParsed pkt] else [])) = [pkt] := by
  cases b <;> simp [loggedPackets]

/-- Display packets of an emission event list. -/
theorem parsedPackets_emit (line : List Char) (pkt : GenericDataPacket) (b : Bool) :
    parsedPackets ([Event.rawLineReady line, Event.dataForLogging pkt] ++
      (if b then [Event.dataParsed pkt] else [])) = if b then [pkt] else [] := by
  cases b <;> simp [parsedPackets]

/-- No error accompanies an emission. -/
theorem errorEvents_emit (line : List Char) (pkt : GenericDataPacket) (b : Bool) :
    errorEvents ([Event.rawLineReady line, Event.dataForLogging pkt] ++
      (if b then [Event.dataParsed pkt] else [])) = [] := by
  cases b <;> simp [errorEvents]

/-- Characterization of the logging output of one `processLine` call:
exactly one logged packet when the line has tokens, passes the filter
and yields at least one value; none otherwise. -/
theorem processLine_logged_eq (cfg : ParserConfig) (st : ParserState) (line : List Char)
    (now wall : Int) :
    loggedPackets (processLine cfg st line now wall).events =
      (if splitLine line cfg.delimiter ≠ [] ∧ lineFiltered cfg line = false ∧
          lineHasData cfg line = true then [linePacket cfg line st.packetCounter wall]
       else []) := by
  rw [processLine_eq]
  by_cases htok : splitLine line cfg.delimiter = []
  · simp [htok, loggedPackets]
  · by_cases hfil : lineFiltered cfg line = true
    · simp [htok, hfil, loggedPackets]
    · have hf0 : lineFiltered cfg line = false := by
        rw [← Bool.not_eq_true]
        exact hfil
      by_cases hdata : lineHasData cfg line = true
      · have hp : (linePacket cfg line st.packetCounter wall).hasData = true :=
          (linePacket_hasData cfg line st.packetCounter wall).trans hdata
        have hcond : splitLine line cfg.delimiter ≠ [] ∧ lineFiltered cfg line = false ∧
            lineHasData cfg line = true := ⟨htok, hf0, hdata⟩
        simp only [if_neg htok, if_neg hfil, if_pos hp, if_pos hcond]
        exact loggedPackets_emit _ _ _
      · have hp : ¬ ((linePacket cfg line st.packetCounter wall).hasData = true) := by
          rw [linePacket_hasData]
          exact hdata
        have hncond : ¬ (splitLine line cfg.delimiter ≠ [] ∧ lineFiltered cfg line = false ∧
            lineHasData cfg line = true) := fun h => hdata h.2.2
        simp only [if_neg htok, if_neg hfil, if_neg hp, if_neg hncond]
        split <;> simp [loggedPackets]

/-- Characterization of the display output of one `processLine` call:
as the logging output, but additionally behind the display gate. -/
theorem processLine_parsed_eq (cfg : ParserConfig) (st : ParserState) (line : List Char)
    (now wall : Int) :
    parsedPackets (processLine cfg st line now wall).events =
      (if splitLine line cfg.delimiter ≠ [] ∧ lineFiltered cfg line = false ∧
          lineHasData cfg line = true ∧
          (displayGate { st with packetCounter := st.packetCounter + 1 } now).1 = true then
        [linePacket cfg line st.packetCounter wall]
       else []) := by
  rw [processLine_eq]
  by_cases htok : splitLine line cfg.delimiter = []
  · simp [htok, parsedPackets]
  · by_cases hfil : lineFiltered cfg line = true
    · simp [htok, hfil, parsedPackets]
    · have hf0 : lineFiltered cfg line = false := by
        rw [← Bool.not_eq_true]
        exact hfil
      by_cases hdata : lineHasData cfg line = true
      · have hp : (linePacket cfg line st.packetCounter wall).hasData = true :=
          (linePacket_hasData cfg line st.packetCounter wall).trans hdata
        simp only [if_neg htok, if_neg hfil, if_pos hp]
        rw [parsedPackets_emit]
        by_cases hg : (displayGate { st with packetCounter := st.packetCounter + 1 } now).1 = true
        · have hcond : splitLine line cfg.delimiter ≠ [] ∧ lineFiltered cfg line = false ∧
              lineHasData cfg line = true ∧
              (displayGate { st with packetCounter := st.packetCounter + 1 } now).1 = true :=
            ⟨htok, hf0, hdata, hg⟩
          rw [if_pos hg, if_pos hcond]
        · have hncond : ¬ (splitLine line cfg.delimiter ≠ [] ∧ lineFiltered cfg line = false ∧
              lineHasData cfg line = true ∧
              (displayGate { st with packetCounter := st.packetCounter + 1 } now).1 = true) :=
            fun h => hg h.2.2.2
          rw [if_neg hg, if_neg hncond]
      · have hp : ¬ ((linePacket cfg line st.packetCounter wall).hasData = true) := by
          rw [linePacket_hasData]
          exact hdata
        have hncond : ¬ (splitLine line cfg.delimiter ≠ [] ∧ lineFiltered cfg line = false ∧
            lineHasData cfg line = true ∧
            (displayGate { st with packetCounter := st.packetCounter + 1 } now).1 = true) :=
          fun h => hdata h.2.2.1
        simp only [if_neg htok, if_neg hfil, if_neg hp, if_neg hncond]
        split <;> simp [parsedPackets]

/-- Characterization of the reported errors of one `processLine` call. -/
theorem processLine_errors_eq (cfg : ParserConfig) (st : ParserState) (line : List Char)
    (now wall : Int) :
    errorEvents (processLine cfg st line now wall).events =
      (if splitLine line cfg.delimiter = [] then [(noTokensMsg, line)]
       else if lineFiltered cfg line = true then []
       else if lineHasData cfg line = true then []
       else if lineHasErr cfg line = true then
         [((linePacket cfg line st.packetCounter wall).errorMessage, line)]
       else []) := by
  rw [processLine_eq]
  by_cases htok : splitLine line cfg.delimiter = []
  · simp [htok, errorEvents]
  · by_cases hfil : lineFiltered cfg line = true
    · simp [htok, hfil, errorEvents]
    · by_cases hdata : lineHasData cfg line = true
      · have hp : (linePacket cfg line st.packetCounter wall).hasData = true :=
          (linePacket_hasData cfg line st.packetCounter wall).trans hdata
        simp only [if_neg htok, if_neg hfil, if_pos hp, if_pos hdata]
        exact errorEvents_emit _ _ _
      · have hp : ¬ ((linePacket cfg line st.packetCounter wall).hasData = true) := by
          rw [linePacket_hasData]
          exact hdata
        simp only [if_neg htok, if_neg hfil, if_neg hp, if_neg hdata]
        by_cases herr : lineHasErr cfg line = true
        · simp [herr, errorEvents]
        · simp [herr, errorEvents]

/-- The extraction loop never changes the packet's sequence number. -/
theorem extractAll_packetIndex (cfg : ParserConfig) (tokens : List (List Char))
    (p : GenericDataPacket) :
    (extractAll cfg tokens p).1.packetIndex = p.packetIndex := by
  refine foldl_invariant (fun acc : GenericDataPacket × Bool =>
    acc.1.packetIndex = p.packetIndex) _ _ _ rfl ?_
  intro a b ha _
  simp only [extractStep]
  split
  · exact ha
  · split
    · simpa [GenericDataPacket.addChannel] using ha
    · exact ha

/-- The emitted packet carries the counter value it was created with. -/
theorem linePacket_index (cfg : ParserConfig) (line : List Char) (counter : Nat) (wall : Int) :
    (linePacket cfg line counter wall).packetIndex = counter := by
  simp only [linePacket]
  exact extractAll_packetIndex cfg (splitLine line cfg.delimiter)
    (freshPacket cfg line counter wall)

/-- Every packet one `processLine` call emits (on either output) carries
the pre-call counter value. -/
theorem processLine_packets_index (cfg : ParserConfig) (st : ParserState) (line : List Char)
    (now wall : Int) :
    ∀ p ∈ packetsOf (processLine cfg st line now wall).events,
      p.packetIndex = st.packetCounter := by
  intro p hp
  rw [packetsOf, List.mem_append] at hp
  rcases hp with hp | hp
  · rw [processLine_logged_eq] at hp
    split at hp
    · rw [List.mem_singleton] at hp
      rw [hp]
      exact linePacket_index _ _ _ _
    · simp at hp
  · rw [processLine_parsed_eq] at hp
    split at hp
    · rw [List.mem_singleton] at hp
      rw [hp]
      exact linePacket_index _ _ _ _
    · simp at hp

/-- In a run, the `k`-th processed line's packets carry index
`start + k`. -/
theorem runEvents_index (cfg : ParserConfig) (items : List (List Char × Int × Int)) :
    ∀ (st : ParserState) (k : Nat), k < items.length →
      ∀ p ∈ packetsOf ((runEvents cfg st items).getD k []),
        p.packetIndex = st.packetCounter + k := by
  induction items with
  | nil => intro st k hk; simp at hk
  | cons it rest ih =>
    intro st k hk p hp
    obtain ⟨l, n, w⟩ := it
    cases k with
    | zero =>
      simp only [runEvents, List.getD_cons_zero] at hp
      simpa using processLine_packets_index cfg st l n w p hp
    | succ k =>
      simp only [runEvents, List.getD_cons_succ] at hp
      have h2 := ih (processLine cfg st l n w).state k (by simpa using hk) p hp
      rw [processLine_counter] at h2
      omega

/-! ## C8: the packet counter -/

/-- C8: each packet emitted for a line carries the pre-call counter,
each processed line advances the counter by one (so successive framed
lines receive successive indices), `reset()` (also as triggered by
`setConfig`) zeroes the counter, and after a reset the `k`-th framed
line's packets carry index `k`. -/
theorem c8_packet_index (cfg : ParserConfig) (st : ParserState) (line : List Char)
    (now wall : Int) :
    (∀ p ∈ packetsOf (processLine cfg st line now wall).events,
        p.packetIndex = st.packetCounter) ∧
    (processLine cfg st line now wall).state.packetCounter = st.packetCounter + 1 ∧
    (resetState st).packetCounter = 0 ∧
    (setConfigState st).packetCounter = 0 ∧
    (∀ (items : List (List Char × Int × Int)) (k : Nat), k < items.length →
      ∀ p ∈ packetsOf ((runEvents cfg (resetState st) items).getD k []),
        p.packetIndex = k) := by
  refine ⟨processLine_packets_index cfg st line now wall,
    processLine_counter cfg st line now wall, rfl, rfl, ?_⟩
  intro items k hk p hp
  simpa [resetState] using runEvents_index cfg items (resetState st) k hk p hp

/-- C8 witness: after a reset, the second framed line `"2,8"` yields the
packet with index 1. -/
theorem c8_witness : samplePacket.packetIndex = 1 :=
  (c8_packet_index ParserConfig.csvDefault plainState ("1,7".toList) 0 0).2.2.2.2
    [("1,7".toList, 0, 0), ("2,8".toList, 0, 0)] 1 (by decide) samplePacket (by decide)

/-- `loggedPackets` distributes over event concatenation. -/
theorem loggedPackets_append (a b : List Event) :
    loggedPackets (a ++ b) = loggedPackets a ++ loggedPackets b := by
  simp [loggedPackets]

/-- `parsedPackets` distributes over event concatenation. -/
theorem parsedPackets_append (a b : List Event) :
    parsedPackets (a ++ b) = parsedPackets a ++ parsedPackets b := by
  simp [parsedPackets]

/-- The Boolean `lineEmits` unpacked. -/
theorem lineEmits_iff (cfg : ParserConfig) (line : List Char) :
    lineEmits cfg line = true ↔
      (splitLine line cfg.delimiter ≠ [] ∧ lineFiltered cfg line = false ∧
        lineHasData cfg line = true) := by
  simp [lineEmits, and_assoc, Bool.not_eq_true']

/-- One `processLine` call logs exactly one packet when the line emits,
zero otherwise. -/
theorem processLine_logged_len (cfg : ParserConfig) (st : ParserState) (line : List Char)
    (now wall : Int) :
    (loggedPackets (processLine cfg st line now wall).events).length =
      (if lineEmits cfg line = true then 1 else 0) := by
  rw [processLine_logged_eq]
  by_cases h : lineEmits cfg line = true
  · rw [if_pos ((lineEmits_iff cfg line).mp h), if_pos h]
    rfl
  · rw [if_neg (fun hc => h ((lineEmits_iff cfg line).mpr hc)), if_neg h]
    rfl

/-- Every display-path packet is also a logging-path packet. -/
theorem processLine_parsed_subset (cfg : ParserConfig) (st : ParserState) (line : List Char)
    (now wall : Int) :
    ∀ p ∈ parsedPackets (processLine cfg st line now wall).events,
      p ∈ loggedPackets (processLine cfg st line now wall).events := by
  intro p hp
  rw [processLine_parsed_eq] at hp
  rw [processLine_logged_eq]
  split at hp
  · rename_i h
    rw [if_pos ⟨h.1, h.2.1, h.2.2.1⟩]
    exact hp
  · simp at hp

/-! ## C5: logging is unconditional and exact -/

/-- C5 (amended): over any run, the number of logging emissions equals
exactly the number of input lines that produce a packet (at least one
extracted value; `isValid` may be `false` for partially failed
packets) — a count independent of the rate-limiter state — and every
display-path packet also appears on the logging path, so the display
rate limiter never removes a packet from the logging path. -/
theorem c5_logging_exact (cfg : ParserConfig) (st : ParserState)
    (items : List (List Char × Int × Int)) :
    (loggedPackets (runLines cfg st items).2).length =
      (items.filter (fun it => lineEmits cfg it.1)).length ∧
    (∀ p ∈ parsedPackets (runLines cfg st items).2,
      p ∈ loggedPackets (runLines cfg st items).2) := by
  constructor
  · induction items generalizing st with
    | nil => simp [runLines, loggedPackets]
    | cons it rest ih =>
      obtain ⟨l, n, w⟩ := it
      simp only [runLines, loggedPackets_append, List.length_append,
        processLine_logged_len, List.filter_cons]
      by_cases h : lineEmits cfg l = true
      · simp [h, ih]
        omega
      · simp [h, ih]
  · induction items generalizing st with
    | nil =>
      intro p hp
      simp [runLines, parsedPackets] at hp
    | cons it rest ih =>
      obtain ⟨l, n, w⟩ := it
      intro p hp
      simp only [runLines, parsedPackets_append, loggedPackets_append,
        List.mem_append] at hp ⊢
      rcases hp with hp | hp
      · exact Or.inl (processLine_parsed_subset cfg st l n w p hp)
      · exact Or.inr (ih (processLine cfg st l n w).state p hp)

/-- C5 witness: in a two-line run, the second line's packet is on the
logging path (it is also on the display path). -/
theorem c5_witness : samplePacket ∈ loggedPackets (runLines ParserConfig.csvDefault
    plainState [("1,7".toList, 0, 0), ("2,8".toList, 0, 0)]).2 :=
  (c5_logging_exact ParserConfig.csvDefault plainState
    [("1,7".toList, 0, 0), ("2,8".toList, 0, 0)]).2 samplePacket (by decide)

/-- C5 (counterexample): line `"1,x"` yields one logging emission whose
packet has `isValid = false`, so logging emissions (1) exceed the
number of valid packets (0): the claimed equality with the number of
*valid* input packets fails. -/
theorem c5_counterexample :
    (loggedPackets (processLine ParserConfig.csvDefault plainState
      ("1,x".toList) 0 0).events).map GenericDataPacket.isValid = [false] := by
  decide

/-- The emitted packet's `isValid` is "has data and no field failed". -/
theorem linePacket_isValid (cfg : ParserConfig) (line : List Char) (counter : Nat) (wall : Int) :
    (linePacket cfg line counter wall).isValid =
      (lineHasData cfg line && !lineHasErr cfg line) := by
  simp only [linePacket, GenericDataPacket.hasData]
  rw [← lineHasErr_eq cfg line counter wall]
  congr 1
  simp only [lineHasData]
  exact congrArg (fun v : List ℚ => decide (v ≠ []))
    ((extractAll_indep cfg (splitLine line cfg.delimiter) line counter wall).2.1)

/-! ## C6: emission iff at least one value; partial success -/

/-- C6: for a line with tokens that passes the ID filter — a packet is
emitted downstream iff at least one value was extracted; with no value
and a failed field, a parse error is reported and no packet is emitted
on either output; with at least one value the packet is emitted (and no
error reported), and if some field nevertheless failed the emitted
packet has `isValid = false`. -/
theorem c6_emission_rule (cfg : ParserConfig) (st : ParserState) (line : List Char)
    (now wall : Int) (htok : splitLine line cfg.delimiter ≠ [])
    (hfil : lineFiltered cfg line = false) :
    (loggedPackets (processLine cfg st line now wall).events ≠ [] ↔
      lineHasData cfg line = true) ∧
    (lineHasData cfg line = false → lineHasErr cfg line = true →
      errorEvents (processLine cfg st line now wall).events =
        [((linePacket cfg line st.packetCounter wall).errorMessage, line)] ∧
      packetsOf (processLine cfg st line now wall).events = []) ∧
    (lineHasData cfg line = true →
      errorEvents (processLine cfg st line now wall).events = [] ∧
      loggedPackets (processLine cfg st line now wall).events =
        [linePacket cfg line st.packetCounter wall]) ∧
    (lineHasData cfg line = true → lineHasErr cfg line = true →
      (linePacket cfg line st.packetCounter wall).isValid = false) := by
  have hfil' : ¬ (lineFiltered cfg line = true) := by simp [hfil]
  refine ⟨?_, ?_, ?_, ?_⟩
  · rw [processLine_logged_eq]
    constructor
    · intro h
      by_cases hd : lineHasData cfg line = true
      · exact hd
      · rw [if_neg (fun hc => hd hc.2.2)] at h
        exact absurd rfl h
    · intro hd
      rw [if_pos ⟨htok, hfil, hd⟩]
      simp
  · intro hd0 herr
    constructor
    · rw [processLine_errors_eq, if_neg htok, if_neg hfil', if_neg (by simp [hd0]), if_pos herr]
    · rw [packetsOf, processLine_logged_eq, processLine_parsed_eq,
        if_neg (fun hc => by rw [hc.2.2] at hd0; exact Bool.noConfusion hd0),
        if_neg (fun hc => by rw [hc.2.2.1] at hd0; exact Bool.noConfusion hd0)]
      rfl
  · intro hd
    constructor
    · rw [processLine_errors_eq, if_neg htok, if_neg hfil', if_pos hd]
    · rw [processLine_logged_eq, if_pos ⟨htok, hfil, hd⟩]
  · intro hd herr
    rw [linePacket_isValid, hd, herr]
    rfl

/-- C6 witness: line `"1,x"` (one value extracted, one field failed) is
emitted with `isValid = false`. -/
theorem c6_witness :
    (linePacket ParserConfig.csvDefault ("1,x".toList) 0 0).isValid = false :=
  (c6_emission_rule ParserConfig.csvDefault plainState ("1,x".toList) 0 0
    (by decide) (by decide)).2.2.2 (by decide) (by decide)

/-! ## C4: the dual-rate display gate -/

/-- C4 (amended): a packet is forwarded on the display output iff rate
limiting is disabled, the interval is `≤ 0`, the stored baseline is the
unset sentinel `0`, or at least the interval (`1000/targetHz` ms for a
positive rate) has elapsed since the baseline; the baseline is updated
to `now` exactly on emissions through the rate-limited branch (an
emission at elapsed time 0 therefore stores the sentinel `0` and leaves
the baseline "unset", and emissions on the disabled/no-interval branch
do not update it); `reset()` clears the baseline. -/
theorem c4_display_gate (cfg : ParserConfig) (st : ParserState) (line : List Char)
    (now wall : Int) (hz : Int) :
    ((displayGate st now).1 = true ↔
      (st.rateLimitEnabled = false ∨ st.targetIntervalMs ≤ 0 ∨ st.lastEmitTimestamp = 0 ∨
        ((now - st.lastEmitTimestamp : Int) : ℚ) ≥ st.targetIntervalMs)) ∧
    ((displayGate st now).2.lastEmitTimestamp =
      (if st.rateLimitEnabled = true ∧ 0 < st.targetIntervalMs ∧
          (st.lastEmitTimestamp = 0 ∨ ((now - st.lastEmitTimestamp : Int) : ℚ) ≥ st.targetIntervalMs)
        then now else st.lastEmitTimestamp)) ∧
    ((resetState st).lastEmitTimestamp = 0) ∧
    (0 < hz → (setTargetDisplayRate st hz).targetIntervalMs = 1000 / (hz : ℚ)) ∧
    (hz ≤ 0 → (setTargetDisplayRate st hz).targetIntervalMs = 0) ∧
    (lineEmits cfg line = true →
      (parsedPackets (processLine cfg st line now wall).events ≠ [] ↔
        (displayGate { st with packetCounter := st.packetCounter + 1 } now).1 = true)) := by
  refine ⟨?_, ?_, rfl, ?_, ?_, ?_⟩
  · simp only [displayGate]
    split
    · rename_i h
      simp only [true_iff]
      rcases h with h | h
      · exact Or.inl h
      · exact Or.inr (Or.inl h)
    · rename_i h
      push_neg at h
      split
      · rename_i h2
        simp only [true_iff]
        rcases h2 with h2 | h2
        · exact Or.inr (Or.inr (Or.inl h2))
        · exact Or.inr (Or.inr (Or.inr h2))
      · rename_i h2
        push_neg at h2
        simp only [Bool.false_eq_true, false_iff]
        push_neg
        exact ⟨h.1, h.2, h2.1, h2.2⟩
  · simp only [displayGate]
    split
    · rename_i h
      rw [if_neg ?_]
      rintro ⟨he, hi, _⟩
      rcases h with h | h
      · rw [h] at he
        exact Bool.noConfusion he
      · exact absurd h (not_le.mpr hi)
    · rename_i h
      push_neg at h
      split
      · rename_i h2
        rw [if_pos ⟨Bool.not_eq_false _ |>.mp h.1, h.2, h2⟩]
      · rename_i h2
        push_neg at h2
        rw [if_neg ?_]
        rintro ⟨_, _, hc | hc⟩
        · exact absurd hc h2.1
        · exact absurd hc (not_le.mpr h2.2)
  · intro h
    simp [setTargetDisplayRate, h]
  · intro h
    simp [setTargetDisplayRate, not_lt.mpr h]
  · intro he
    obtain ⟨htok, hfil, hd⟩ := (lineEmits_iff cfg line).mp he
    rw [processLine_parsed_eq]
    by_cases hg : (displayGate { st with packetCounter := st.packetCounter + 1 } now).1 = true
    · rw [if_pos ⟨htok, hfil, hd, hg⟩]
      simp [hg]
    · rw [if_neg (fun hc => hg hc.2.2.2)]
      simp [hg]

/-- C4 witness: with rate limiting disabled every packet passes the
gate, and `setTargetDisplayRate(20)` configures a `1000/20` ms interval. -/
theorem c4_witness :
    (displayGate plainState 5).1 = true ∧
    (setTargetDisplayRate plainState 20).targetIntervalMs = 1000 / ((20 : Int) : ℚ) :=
  ⟨((c4_display_gate ParserConfig.csvDefault plainState [] 5 0 20).1).mpr (Or.inl rfl),
   (c4_display_gate ParserConfig.csvDefault plainState [] 5 0 20).2.2.2.1 (by decide)⟩

/-- C4 (counterexample): with a 50 ms interval and packets at elapsed
times 0 and 1, the code emits *both* (the emission at time 0 stores the
sentinel 0, leaving the baseline unset), while the claimed rule — first
packet always, then only after ≥ interval — drops the second. -/
theorem c4_counterexample :
    (displayGate limitedState 0).1 = true ∧
    (displayGate limitedState 0).2.lastEmitTimestamp = 0 ∧
    (displayGate (displayGate limitedState 0).2 1).1 = true ∧
    (specGate true 50 none 0).1 = true ∧
    (specGate true 50 ((specGate true 50 none 0).2) 1).1 = false := by
  decide

/-! ## C1: the sensor-ID filter is silent, and empty filter accepts all -/

/-- `processLine`'s silent-discard flag is exactly the `lineFiltered`
condition read off lines 125–168. -/
theorem processLine_filtered_eq (cfg : ParserConfig) (st : ParserState) (line : List Char)
    (now wall : Int) :
    (processLine cfg st line now wall).filtered = lineFiltered cfg line := by
  simp only [processLine, lineFiltered, idTokenOf]
  by_cases htok : splitLine line cfg.delimiter = []
  · simp only [htok, if_pos rfl]
    have h0 : ¬ (0 ≤ cfg.idFieldIndex ∧
        cfg.idFieldIndex < (([] : List (List Char)).length : Int)) := by
      simp only [List.length_nil, Nat.cast_zero]
      omega
    rw [if_neg h0]
    simp
  · simp only [htok, ite_false]
    by_cases hid : 0 ≤ cfg.idFieldIndex ∧
        cfg.idFieldIndex < ((splitLine line cfg.delimiter).length : Int)
    · simp only [if_pos hid]
      generalize (if cfg.trimWhitespace = true then
          trimStr ((splitLine line cfg.delimiter).getD cfg.idFieldIndex.toNat [])
        else (splitLine line cfg.delimiter).getD cfg.idFieldIndex.toNat []) = tok
      split
      · rename_i h
        exact h.symm
      · rename_i h
        rw [Bool.not_eq_true] at h
        rw [h]
        split
        · rfl
        · split <;> rfl
    · simp only [if_neg hid]
      split
      · rename_i h
        exact Bool.noConfusion h
      · split
        · rfl
        · split <;> rfl

/-- A silently discarded line produces only the unconditional raw-line
signal: no packet on either output and no error. -/
theorem processLine_events_of_filtered (cfg : ParserConfig) (st : ParserState)
    (line : List Char) (now wall : Int) (h : lineFiltered cfg line = true) :
    (processLine cfg st line now wall).events = [Event.rawLineReady line] := by
  have hid : 0 ≤ cfg.idFieldIndex ∧
      cfg.idFieldIndex < ((splitLine line cfg.delimiter).length : Int) := by
    by_contra hc
    simp only [lineFiltered, if_neg hc] at h
    exact Bool.noConfusion h
  have htok : ¬ (splitLine line cfg.delimiter = []) := by
    intro he
    rw [he] at hid
    simp only [List.length_nil, Nat.cast_zero] at hid
    omega
  have hb : (decide (cfg.acceptSensorId ≠ []) &&
      !matchesSensorId (if cfg.trimWhitespace = true then
          trimStr ((splitLine line cfg.delimiter).getD cfg.idFieldIndex.toNat [])
        else (splitLine line cfg.delimiter).getD cfg.idFieldIndex.toNat [])
        cfg.acceptSensorId) = true := by
    simpa only [lineFiltered, idTokenOf, if_pos hid] using h
  simp only [processLine, if_neg htok, if_pos hid, hb]
  simp

/-- C1: when the ID field is configured and in token bounds, the filter
string is non-empty, and the extracted ID does not match, the line is
discarded silently — the only signal is the raw line, so neither output
receives a packet and no error is reported; and when `acceptSensorId`
is empty, the ID filter never discards a line. -/
theorem c1_sensor_filter (cfg : ParserConfig) (st : ParserState) (line : List Char)
    (now wall : Int) :
    ((0 ≤ cfg.idFieldIndex ∧ cfg.idFieldIndex < ((splitLine line cfg.delimiter).length : Int) ∧
      cfg.acceptSensorId ≠ [] ∧ matchesSensorId (idTokenOf cfg line) cfg.acceptSensorId = false) →
        (processLine cfg st line now wall).events = [Event.rawLineReady line] ∧
        (processLine cfg st line now wall).filtered = true) ∧
    (cfg.acceptSensorId = [] → (processLine cfg st line now wall).filtered = false) := by
  constructor
  · rintro ⟨h0, hlt, hne, hmm⟩
    have hf : lineFiltered cfg line = true := by
      simp only [lineFiltered, if_pos (And.intro h0 hlt)]
      simp [hne, hmm]
    exact ⟨processLine_events_of_filtered _ _ _ _ _ hf,
      (processLine_filtered_eq _ _ _ _ _).trans hf⟩
  · intro h
    rw [processLine_filtered_eq]
    simp [lineFiltered, h]

/-- C1 witness: with a CSV config filtering on ID `"2"`, the line
`"1,7"` is silently discarded; with the empty filter nothing is
discarded. -/
theorem c1_witness :
    (processLine cfgIdFilter plainState ("1,7".toList) 0 0).events =
      [Event.rawLineReady ("1,7".toList)] ∧
    (processLine cfgIdFilter plainState ("1,7".toList) 0 0).filtered = true ∧
    (processLine ParserConfig.csvDefault plainState ("1,7".toList) 0 0).filtered = false :=
  ⟨((c1_sensor_filter cfgIdFilter plainState ("1,7".toList) 0 0).1 (by decide)).1,
   ((c1_sensor_filter cfgIdFilter plainState ("1,7".toList) 0 0).1 (by decide)).2,
   (c1_sensor_filter ParserConfig.csvDefault plainState ("1,7".toList) 0 0).2 (by decide)⟩

/-! ## C2: the sensor-ID matching rule -/

/-- The `idNumeric`/`filterNumeric` accumulation loops keep exactly the
digit/minus characters, in order. -/
theorem numericPart_eq_filter (s : List Char) :
    numericPart s = s.filter isDigitOrMinus := by
  suffices h : ∀ acc : List Char,
      s.foldl (fun acc c => if isDigitOrMinus c then acc ++ [c] else acc) acc =
        acc ++ s.filter isDigitOrMinus by
    simpa [numericPart] using h []
  induction s with
  | nil => intro acc; simp
  | cons c s ih =>
    intro acc
    by_cases hc : isDigitOrMinus c <;> simp [hc, List.filter_cons, ih]

/-- C2 (amended): the filter accepts an ID token iff the two strings
are equal case-insensitively, or the subsequences of **all**
digit/minus characters of the two strings (not only a longest
contiguous run) are both non-empty and equal. -/
theorem c2_sensor_id_match_rule (idStr filter : List Char) :
    matchesSensorId idStr filter = true ↔
      (lowerStr idStr = lowerStr filter ∨
        (idStr.filter isDigitOrMinus ≠ [] ∧ filter.filter isDigitOrMinus ≠ [] ∧
          idStr.filter isDigitOrMinus = filter.filter isDigitOrMinus)) := by
  by_cases hci : lowerStr idStr = lowerStr filter <;>
    simp [matchesSensorId, ciEq, numericPart_eq_filter, hci, and_assoc]

/-- C2 (counterexample): the code accepts ID `"1a2"` against filter
`"12"` (their full digit subsequences are both `"12"`), although the
strings differ case-insensitively and their longest contiguous
digit/minus runs (`"1"` vs. `"12"`) differ, so the claimed
longest-run rule would reject. -/
theorem c2_counterexample :
    matchesSensorId ("1a2".toList) ("12".toList) = true ∧
    ciEq ("1a2".toList) ("12".toList) = false ∧
    longestDigitRun ("1a2".toList) ≠ longestDigitRun ("12".toList) := by
  decide

/-! ## C7: framing bounds -/

/-- `dropWhile` never lengthens a list. -/
theorem dropWhile_length_le (p : Char → Bool) (l : List Char) :
    (l.dropWhile p).length ≤ l.length := by
  induction l with
  | nil => simp
  | cons c l ih =>
    rw [List.dropWhile_cons]
    split
    · exact Nat.le_succ_of_le ih
    · exact Nat.le_refl _

/-- A match position reported by `indexOf` is within the haystack. -/
theorem findSub_le (hay needle : List Char) :
    ∀ pos, findSub hay needle = some pos → pos ≤ hay.length := by
  induction hay with
  | nil =>
    intro pos h
    simp only [findSub] at h
    split at h
    · cases h
      exact Nat.zero_le _
    · cases h
  | cons c rest ih =>
    intro pos h
    simp only [findSub] at h
    split at h
    · cases h
      exact Nat.zero_le _
    · rw [Option.map_eq_some'] at h
      obtain ⟨q, hq, rfl⟩ := h
      exact Nat.succ_le_succ (ih q hq)

/-- Trimming never lengthens a string. -/
theorem trimStr_length_le (s : List Char) : (trimStr s).length ≤ s.length := by
  simp only [trimStr]
  calc ((s.dropWhile isSpaceChar).reverse.dropWhile isSpaceChar).reverse.length
      = ((s.dropWhile isSpaceChar).reverse.dropWhile isSpaceChar).length := by
        rw [List.length_reverse]
    _ ≤ (s.dropWhile isSpaceChar).reverse.length := dropWhile_length_le _ _
    _ = (s.dropWhile isSpaceChar).length := by rw [List.length_reverse]
    _ ≤ s.length := dropWhile_length_le _ _

/-- Bounds of the framing loop: every line discarded as
`"Line too long"` strictly exceeds `maxLineLength`, and every line
handed to `processLine` is within it. -/
theorem frameLoop_bounds (cfg : ParserConfig) : ∀ (fuel : Nat) (buf : List Char),
    (∀ l, FrameOut.tooLong l ∈ (frameLoop cfg fuel buf).1 →
      (l.length : Int) > cfg.maxLineLength) ∧
    (∀ l, FrameOut.line l ∈ (frameLoop cfg fuel buf).1 →
      (l.length : Int) ≤ cfg.maxLineLength) := by
  intro fuel
  induction fuel with
  | zero => intro buf; simp [frameLoop]
  | succ fuel ih =>
    intro buf
    cases hfind : findSub buf cfg.lineEnding with
    | none => simp [frameLoop, hfind]
    | some pos =>
      have hpos : pos ≤ buf.length := findSub_le buf cfg.lineEnding pos hfind
      have htake : (buf.take pos).length = pos := by
        rw [List.length_take]
        omega
      simp only [frameLoop, hfind]
      by_cases hlong : (pos : Int) > cfg.maxLineLength
      · rw [if_pos hlong]
        constructor
        · intro l hl
          rcases List.mem_cons.mp hl with hl | hl
          · cases hl
            rw [htake]
            exact hlong
          · exact (ih _).1 l hl
        · intro l hl
          rcases List.mem_cons.mp hl with hl | hl
          · cases hl
          · exact (ih _).2 l hl
      · rw [if_neg hlong]
        have hle : ((buf.take pos).length : Int) ≤ cfg.maxLineLength := by
          rw [htake]
          omega
        by_cases hsk1 : buf.take pos = [] ∧ cfg.skipEmptyLines = true
        · rw [if_pos hsk1]
          refine ⟨?_, ?_⟩
          · intro l hl
            rcases List.mem_cons.mp hl with hl | hl
            · cases hl
            · exact (ih _).1 l hl
          · intro l hl
            rcases List.mem_cons.mp hl with hl | hl
            · cases hl
            · exact (ih _).2 l hl
        · rw [if_neg hsk1]
          by_cases htw : cfg.trimWhitespace = true
          · simp only [if_pos htw]
            by_cases hsk2 : trimStr (buf.take pos) = [] ∧ cfg.skipEmptyLines = true
            · rw [if_pos hsk2]
              refine ⟨?_, ?_⟩
              · intro l hl
                rcases List.mem_cons.mp hl with hl | hl
                · cases hl
                · exact (ih _).1 l hl
              · intro l hl
                rcases List.mem_cons.mp hl with hl | hl
                · cases hl
                · exact (ih _).2 l hl
            · rw [if_neg hsk2]
              refine ⟨?_, ?_⟩
              · intro l hl
                rcases List.mem_cons.mp hl with hl | hl
                · cases hl
                · exact (ih _).1 l hl
              · intro l hl
                rcases List.mem_cons.mp hl with hl | hl
                · cases hl
                  calc ((trimStr (buf.take pos)).length : Int)
                      ≤ ((buf.take pos).length : Int) := by
                        exact_mod_cast trimStr_length_le _
                    _ ≤ cfg.maxLineLength := hle
                · exact (ih _).2 l hl
          · simp only [if_neg htw]
            rw [if_neg hsk1]
            refine ⟨?_, ?_⟩
            · intro l hl
              rcases List.mem_cons.mp hl with hl | hl
              · cases hl
              · exact (ih _).1 l hl
            · intro l hl
              rcases List.mem_cons.mp hl with hl | hl
              · cases hl
                exact hle
              · exact (ih _).2 l hl

/-- C7: too-long terminated lines are discarded (and only such lines);
processed lines are within the bound; after a `parse` call the retained
buffer is within the bound; and when the overflow discard fires, the
discarded unterminated buffer exceeded the bound and the retained
buffer is empty. -/
theorem c7_framing (cfg : ParserConfig) (buffer data : List Char)
    (hmax : 0 ≤ cfg.maxLineLength) :
    (∀ l, FrameOut.tooLong l ∈ (frameStep cfg buffer data).outs →
      (l.length : Int) > cfg.maxLineLength) ∧
    (∀ l, FrameOut.line l ∈ (frameStep cfg buffer data).outs →
      (l.length : Int) ≤ cfg.maxLineLength) ∧
    (((frameStep cfg buffer data).buffer.length : Int) ≤ cfg.maxLineLength) ∧
    (∀ b, (frameStep cfg buffer data).overflow = some b →
      (b.length : Int) > cfg.maxLineLength ∧ (frameStep cfg buffer data).buffer = []) := by
  have hb := frameLoop_bounds cfg ((buffer ++ data).length + 1) (buffer ++ data)
  by_cases hover : (((frameLoop cfg ((buffer ++ data).length + 1) (buffer ++ data)).2.length : Int)
      > cfg.maxLineLength)
  · have hstep : frameStep cfg buffer data =
        { outs := (frameLoop cfg ((buffer ++ data).length + 1) (buffer ++ data)).1,
          overflow := some (frameLoop cfg ((buffer ++ data).length + 1) (buffer ++ data)).2,
          buffer := [] } := by
      simp only [frameStep, if_pos hover]
    rw [hstep]
    refine ⟨hb.1, hb.2, by simpa using hmax, ?_⟩
    intro b hbv
    cases hbv
    exact ⟨hover, rfl⟩
  · have hstep : frameStep cfg buffer data =
        { outs := (frameLoop cfg ((buffer ++ data).length + 1) (buffer ++ data)).1,
          overflow := none,
          buffer := (frameLoop cfg ((buffer ++ data).length + 1) (buffer ++ data)).2 } := by
      simp only [frameStep, if_neg hover]
    rw [hstep]
    refine ⟨hb.1, hb.2, ?_, ?_⟩
    · show ((frameLoop cfg ((buffer ++ data).length + 1) (buffer ++ data)).2.length : Int) ≤
        cfg.maxLineLength
      omega
    · intro b hbv
      cases hbv

/-- C7 witness: a 8-character unterminated line against
`maxLineLength = 3` triggers the buffer-overflow discard, leaving an
empty buffer. -/
theorem c7_witness :
    ((frameStep cfgShort [] ("abcdefgh".toList)).buffer.length : Int) ≤
      cfgShort.maxLineLength ∧
    (("abcdefgh".toList.length : Int) > cfgShort.maxLineLength ∧
      (frameStep cfgShort [] ("abcdefgh".toList)).buffer = []) :=
  ⟨(c7_framing cfgShort [] ("abcdefgh".toList) (by decide)).2.2.1,
   (c7_framing cfgShort [] ("abcdefgh".toList) (by decide)).2.2.2
     ("abcdefgh".toList) (by decide)⟩

/-! ## C9: testParse -/

/-- `testStep` leaves the token list untouched. -/
theorem testStep_fieldTexts (cfg : ParserConfig) (tokens : List (List Char))
    (r : ParseResult) (i : Int) : (testStep cfg tokens r i).fieldTexts = r.fieldTexts := by
  simp only [testStep]
  split
  · rfl
  · split <;> rfl

/-- `testStep` leaves the original line untouched. -/
theorem testStep_originalLine (cfg : ParserConfig) (tokens : List (List Char))
    (r : ParseResult) (i : Int) : (testStep cfg tokens r i).originalLine = r.originalLine := by
  simp only [testStep]
  split
  · rfl
  · split <;> rfl

/-- `testStep` appends the extracted value, if any. -/
theorem testStep_values (cfg : ParserConfig) (tokens : List (List Char))
    (r : ParseResult) (i : Int) :
    (testStep cfg tokens r i).values = r.values ++ (fieldValue cfg tokens i).toList := by
  simp only [testStep, fieldValue]
  split
  · simp
  · split
    · rename_i v hv
      rw [hv]
      rfl
    · rename_i hv
      rw [hv]
      simp

/-- `testStep` clears `success` exactly on a failing field. -/
theorem testStep_success (cfg : ParserConfig) (tokens : List (List Char))
    (r : ParseResult) (i : Int) :
    (testStep cfg tokens r i).success = (r.success && !fieldFails cfg tokens i) := by
  simp only [testStep, fieldFails, fieldValue]
  split
  · simp
  · split
    · rename_i v hv
      rw [hv]
      simp
    · rename_i hv
      rw [hv]
      simp

/-- `testStep` overwrites `failedFieldIndex` exactly on a failing
field: the *last* failure wins. -/
theorem testStep_failed (cfg : ParserConfig) (tokens : List (List Char))
    (r : ParseResult) (i : Int) :
    (testStep cfg tokens r i).failedFieldIndex =
      (if fieldFails cfg tokens i = true then i else r.failedFieldIndex) := by
  simp only [testStep, fieldFails, fieldValue]
  split
  · simp
  · split
    · rename_i v hv
      rw [hv]
      simp
    · rename_i hv
      rw [hv]
      simp

/-- Full characterization of `testParse`'s extraction loop. -/
theorem testFold_spec (cfg : ParserConfig) (tokens : List (List Char)) :
    ∀ (fields : List Int) (r : ParseResult),
      (fields.foldl (testStep cfg tokens) r).fieldTexts = r.fieldTexts ∧
      (fields.foldl (testStep cfg tokens) r).originalLine = r.originalLine ∧
      (fields.foldl (testStep cfg tokens) r).failedFieldIndex =
        (fields.filter (fieldFails cfg tokens)).getLastD r.failedFieldIndex ∧
      (fields.foldl (testStep cfg tokens) r).success =
        (r.success && fields.all (fun i => !fieldFails cfg tokens i)) ∧
      (fields.foldl (testStep cfg tokens) r).values =
        r.values ++ fields.filterMap (fieldValue cfg tokens) := by
  intro fields
  induction fields with
  | nil =>
    intro r
    simp [List.getLastD]
  | cons i fields ih =>
    intro r
    simp only [List.foldl_cons, List.filter_cons, List.all_cons, List.filterMap_cons]
    obtain ⟨ht, ho, hfi, hs, hv⟩ := ih (testStep cfg tokens r i)
    refine ⟨ht.trans (testStep_fieldTexts _ _ _ _),
      ho.trans (testStep_originalLine _ _ _ _), ?_, ?_, ?_⟩
    · rw [hfi, testStep_failed]
      by_cases hf : fieldFails cfg tokens i = true
      · simp only [hf, if_true, List.getLastD_cons]
      · simp [hf]
    · rw [hs, testStep_success, Bool.and_assoc]
    · rw [hv, testStep_values, List.append_assoc]
      congr 1
      cases hfv : fieldValue cfg tokens i <;> simp

/-- Splitting a non-empty line always produces at least one token. -/
theorem splitLine_ne_nil (line delim : List Char) (h : line ≠ []) :
    splitLine line delim ≠ [] := by
  simp only [splitLine, if_neg h]
  split
  · simp
  · cases hf : splitLoop line.length line delim with
    | nil =>
      exfalso
      revert hf
      generalize line.length = fuel
      cases fuel with
      | zero => simp [splitLoop]
      | succ fuel =>
        simp only [splitLoop]
        split
        · simp
        · simp
    | cons a l => simp

/-- C9 (amended): `testParse` is a pure function of the sample line and
configuration (it is `static` in the source and the embedding takes no
parser state, so no parser state is read or written); for a non-blank
line it returns the raw token list, the extracted values in order,
`success` iff every selected field succeeded and at least one value was
extracted, and `failedFieldIndex` equal to the index of the **last**
(not first) failing field, `-1` when none failed. -/
theorem c9_test_parse (sampleLine : List Char) (cfg : ParserConfig)
    (hne : trimmedLine cfg sampleLine ≠ []) :
    (testParse sampleLine cfg).originalLine = sampleLine ∧
    (testParse sampleLine cfg).fieldTexts = testTokens cfg sampleLine ∧
    (testParse sampleLine cfg).failedFieldIndex = lastFailedIndex sampleLine cfg ∧
    ((testParse sampleLine cfg).success = true ↔
      ((fieldsToExtract cfg (testTokens cfg sampleLine).length).all
        (fun i => !fieldFails cfg (testTokens cfg sampleLine) i) = true ∧
        (testParse sampleLine cfg).values ≠ [])) ∧
    (testParse sampleLine cfg).values =
      (fieldsToExtract cfg (testTokens cfg sampleLine).length).filterMap
        (fieldValue cfg (testTokens cfg sampleLine)) := by
  have htok : testTokens cfg sampleLine ≠ [] :=
    splitLine_ne_nil _ _ hne
  obtain ⟨lineView, hLV⟩ : ∃ lv, (if cfg.trimWhitespace = true then trimStr sampleLine
      else sampleLine) = lv := ⟨_, rfl⟩
  simp only [trimmedLine, hLV] at hne
  simp only [testTokens, trimmedLine, hLV] at htok
  simp only [testParse, testTokens, trimmedLine, lastFailedIndex, hLV,
    if_neg hne, if_neg htok]
  obtain ⟨ht, ho, hfi, hs, hv⟩ := testFold_spec cfg (splitLine lineView cfg.delimiter)
    (fieldsToExtract cfg (splitLine lineView cfg.delimiter).length)
    { success := true, errorMessage := [], failedFieldIndex := -1, values := [],
      fieldTexts := splitLine lineView cfg.delimiter, originalLine := sampleLine }
  split
  · rename_i hcase
    refine ⟨ho, ht, hfi, ?_, hv⟩
    constructor
    · intro hfalse
      exact Bool.noConfusion hfalse
    · rintro ⟨-, hne2⟩
      exact absurd hcase.2 hne2
  · rename_i hcase
    refine ⟨ho, ht, hfi, ?_, hv⟩
    rw [hs, Bool.true_and]
    constructor
    · intro hall
      refine ⟨hall, ?_⟩
      intro hemp
      exact hcase ⟨by rw [hs, Bool.true_and]; exact hall, hemp⟩
    · intro h
      exact h.1

/-- C9 witness: on line `"1,7"` no field fails and `failedFieldIndex`
is the last-failure default `-1`. -/
theorem c9_witness :
    (testParse ("1,7".toList) ParserConfig.csvDefault).failedFieldIndex =
      lastFailedIndex ("1,7".toList) ParserConfig.csvDefault :=
  (c9_test_parse ("1,7".toList) ParserConfig.csvDefault (by decide)).2.2.1

/-- C9 (counterexample): on line `"x,y"` both fields fail;
`failedFieldIndex` is `1` — the last failing field — while the first
failing field is `0`. -/
theorem c9_counterexample :
    (testParse ("x,y".toList) ParserConfig.csvDefault).failedFieldIndex = 1 ∧
    specFirstFailedIndex ("x,y".toList) ParserConfig.csvDefault = 0 := by
  decide

theorem strLt_cons_iff (x y : Char) (xs ys : List Char) :
    strLt (x :: xs) (y :: ys) = true ↔
      (x.val.toNat < y.val.toNat ∨ (x = y ∧ strLt xs ys = true)) := by
  simp only [strLt]
  by_cases h1 : x.val < y.val
  · have h1' : x.val.toNat < y.val.toNat := h1
    simp [if_pos h1, h1']
  · rw [if_neg h1]
    by_cases h2 : y.val < x.val
    · rw [if_pos h2]
      have h2' : y.val.toNat < x.val.toNat := h2
      have h1' : ¬ x.val.toNat < y.val.toNat := h1
      have hne : ¬ x = y := by
        intro h
        rw [h] at h2'
        omega
      constructor
      · intro h
        exact Bool.noConfusion h
      · rintro (h | ⟨h, -⟩)
        · omega
        · exact absurd h hne
    · rw [if_neg h2]
      have hxy : x = y := by
        have h1' : ¬ x.val.toNat < y.val.toNat := h1
        have h2' : ¬ y.val.toNat < x.val.toNat := h2
        exact Char.eq_of_val_eq (UInt32.ext (by omega))
      have h1' : ¬ x.val.toNat < y.val.toNat := h1
      simp [hxy, h1']

theorem strLt_total (a : List Char) : ∀ (b : List Char), a ≠ b →
    strLt a b = true ∨ strLt b a = true := by
  induction a with
  | nil =>
    intro b hne
    cases b with
    | nil => exact absurd rfl hne
    | cons y ys => left; simp [strLt]
  | cons x xs ih =>
    intro b hne
    cases b with
    | nil => right; simp [strLt]
    | cons y ys =>
      by_cases hxy : x = y
      · have hne2 : xs ≠ ys := by
          intro h
          exact hne (by rw [hxy, h])
        rcases ih ys hne2 with h | h
        · left
          exact (strLt_cons_iff _ _ _ _).mpr (Or.inr ⟨hxy, h⟩)
        · right
          exact (strLt_cons_iff _ _ _ _).mpr (Or.inr ⟨hxy.symm, h⟩)
      · have : x.val.toNat ≠ y.val.toNat := by
          intro h
          exact hxy (Char.eq_of_val_eq (UInt32.ext h))
        by_cases hlt : x.val.toNat < y.val.toNat
        · left
          exact (strLt_cons_iff _ _ _ _).mpr (Or.inl hlt)
        · right
          exact (strLt_cons_iff _ _ _ _).mpr (Or.inl (by omega))

theorem strLt_trans (a : List Char) : ∀ (b c : List Char),
    strLt a b = true → strLt b c = true → strLt a c = true := by
  induction a with
  | nil =>
    intro b c hab hbc
    cases c with
    | nil =>
      cases b with
      | nil => exact hab
      | cons y ys => exact absurd hbc (by simp [strLt])
    | cons z zs => simp [strLt]
  | cons x xs ih =>
    intro b c hab hbc
    cases b with
    | nil => exact absurd hab (by simp [strLt])
    | cons y ys =>
      cases c with
      | nil => exact absurd hbc (by simp [strLt])
      | cons z zs =>
        rcases (strLt_cons_iff _ _ _ _).mp hab with h1 | ⟨h1, h1'⟩ <;>
          rcases (strLt_cons_iff _ _ _ _).mp hbc with h2 | ⟨h2, h2'⟩
        · exact (strLt_cons_iff _ _ _ _).mpr (Or.inl (by omega))
        · exact (strLt_cons_iff _ _ _ _).mpr (Or.inl (by rw [← h2]; omega))
        · exact (strLt_cons_iff _ _ _ _).mpr (Or.inl (by rw [h1]; omega))
        · exact (strLt_cons_iff _ _ _ _).mpr
            (Or.inr ⟨h1.trans h2, ih ys zs h1' h2'⟩)

theorem mapInsert_subset (k : List Char) (v : ℚ) :
    ∀ (l : List (List Char × ℚ)) (p : List Char × ℚ),
      p ∈ mapInsert k v l → p = (k, v) ∨ p ∈ l := by
  intro l
  induction l with
  | nil =>
    intro p hp
    simp only [mapInsert, List.mem_singleton] at hp
    exact Or.inl hp
  | cons kv rest ih =>
    intro p hp
    obtain ⟨k', v'⟩ := kv
    simp only [mapInsert] at hp
    split at hp
    · rcases List.mem_cons.mp hp with h | h
      · exact Or.inl h
      · exact Or.inr h
    · split at hp
      · rcases List.mem_cons.mp hp with h | h
        · exact Or.inl h
        · exact Or.inr (List.mem_cons_of_mem _ h)
      · rcases List.mem_cons.mp hp with h | h
        · exact Or.inr (h ▸ List.mem_cons_self _ _)
        · rcases ih p h with h2 | h2
          · exact Or.inl h2
          · exact Or.inr (List.mem_cons_of_mem _ h2)

theorem mapInsert_mem_self (k : List Char) (v : ℚ) :
    ∀ (l : List (List Char × ℚ)), (k, v) ∈ mapInsert k v l := by
  intro l
  induction l with
  | nil => simp [mapInsert]
  | cons kv rest ih =>
    obtain ⟨k', v'⟩ := kv
    simp only [mapInsert]
    split
    · exact List.mem_cons_self _ _
    · split
      · exact List.mem_cons_self _ _
      · exact List.mem_cons_of_mem _ ih

theorem mapInsert_mem_of_ne (k : List Char) (v : ℚ) :
    ∀ (l : List (List Char × ℚ)) (p : List Char × ℚ),
      p ∈ l → p.1 ≠ k → p ∈ mapInsert k v l := by
  intro l
  induction l with
  | nil => intro p hp; simp at hp
  | cons kv rest ih =>
    intro p hp hne
    obtain ⟨k', v'⟩ := kv
    simp only [mapInsert]
    split
    · exact List.mem_cons_of_mem _ hp
    · split
      · rename_i heq
        rcases List.mem_cons.mp hp with h | h
        · exfalso
          apply hne
          rw [h, ← heq]
        · exact List.mem_cons_of_mem _ h
      · rcases List.mem_cons.mp hp with h | h
        · exact h ▸ List.mem_cons_self _ _
        · exact List.mem_cons_of_mem _ (ih p h hne)

theorem mapInsert_length (k : List Char) (v : ℚ) :
    ∀ (l : List (List Char × ℚ)), k ∉ l.map Prod.fst →
      (mapInsert k v l).length = l.length + 1 := by
  intro l
  induction l with
  | nil => intro _; rfl
  | cons kv rest ih =>
    intro hk
    obtain ⟨k', v'⟩ := kv
    simp only [List.map_cons, List.mem_cons] at hk
    push_neg at hk
    simp only [mapInsert]
    split
    · simp
    · split
      · rename_i heq
        exact absurd heq hk.1
      · simp only [List.length_cons, ih hk.2]

theorem mapInsert_pairwise (k : List Char) (v : ℚ) :
    ∀ (l : List (List Char × ℚ)), List.Pairwise chanLt l →
      List.Pairwise chanLt (mapInsert k v l) := by
  intro l
  induction l with
  | nil => intro _; simp [mapInsert, List.pairwise_singleton]
  | cons kv rest ih =>
    intro hp
    obtain ⟨k', v'⟩ := kv
    rw [List.pairwise_cons] at hp
    obtain ⟨h1, h2⟩ := hp
    simp only [mapInsert]
    split
    · rename_i hlt
      rw [List.pairwise_cons]
      refine ⟨?_, List.pairwise_cons.mpr ⟨h1, h2⟩⟩
      intro p hpmem
      rcases List.mem_cons.mp hpmem with h | h
      · rw [h]
        exact hlt
      · exact strLt_trans k k' p.1 hlt (h1 p h)
    · split
      · rename_i heq
        rw [List.pairwise_cons]
        refine ⟨?_, h2⟩
        intro p hpmem
        rw [chanLt, heq]
        exact h1 p hpmem
      · rename_i hnlt hne
        rw [List.pairwise_cons]
        refine ⟨?_, ih h2⟩
        intro p hpmem
        rcases mapInsert_subset k v rest p hpmem with h | h
        · rw [h]
          show strLt k' k = true
          rcases strLt_total k' k (fun hc => hne hc.symm) with hh | hh
          · exact hh
          · exact absurd hh hnlt
        · exact h1 p h
    
theorem addChannels_mem_preserved :
    ∀ (pairs : List (List Char × ℚ)) (p : GenericDataPacket) (q : List Char × ℚ),
      q ∈ p.channels → q.1 ∉ pairs.map Prod.fst →
      q ∈ (addChannels p pairs).channels := by
  intro pairs
  induction pairs with
  | nil => intro p q hq _; exact hq
  | cons kv rest ih =>
    intro p q hq hk
    obtain ⟨k, v⟩ := kv
    simp only [List.map_cons, List.mem_cons] at hk
    push_neg at hk
    exact ih (p.addChannel k v) q (mapInsert_mem_of_ne k v p.channels q hq hk.1) hk.2

theorem addChannels_spec :
    ∀ (pairs : List (List Char × ℚ)) (p : GenericDataPacket),
      List.Pairwise chanLt p.channels →
      ((addChannels p pairs).values = p.values ++ pairs.map Prod.snd) ∧
      List.Pairwise chanLt (addChannels p pairs).channels ∧
      ((pairs.map Prod.fst).Nodup →
        (∀ k ∈ pairs.map Prod.fst, k ∉ p.channels.map Prod.fst) →
        ((addChannels p pairs).channels.length = p.channels.length + pairs.length ∧
         ∀ nv ∈ pairs, nv ∈ (addChannels p pairs).channels)) := by
  intro pairs
  induction pairs with
  | nil =>
    intro p hpw
    refine ⟨by simp [addChannels], by simpa [addChannels] using hpw, ?_⟩
    intro _ _
    exact ⟨by simp [addChannels], by simp⟩
  | cons kv rest ih =>
    intro p hpw
    obtain ⟨k, v⟩ := kv
    have hstep : addChannels p ((k, v) :: rest) = addChannels (p.addChannel k v) rest := rfl
    have hpw' : List.Pairwise chanLt (p.addChannel k v).channels :=
      mapInsert_pairwise k v p.channels hpw
    obtain ⟨ihv, ihpw, ihrest⟩ := ih (p.addChannel k v) hpw'
    rw [hstep]
    refine ⟨?_, ihpw, ?_⟩
    · rw [ihv]
      simp [GenericDataPacket.addChannel]
    · intro hnodup hfresh
      simp only [List.map_cons, List.nodup_cons] at hnodup
      have hkfresh : k ∉ p.channels.map Prod.fst := hfresh k (by simp)
      have hfresh' : ∀ k' ∈ rest.map Prod.fst, k' ∉ (p.addChannel k v).channels.map Prod.fst := by
        intro k' hk' hmem
        rw [List.mem_map] at hmem
        obtain ⟨q, hq, hq1⟩ := hmem
        rcases mapInsert_subset k v p.channels q hq with h | h
        · rw [h] at hq1
          apply hnodup.1
          rw [show k = k' from hq1]
          exact hk'
        · refine hfresh k' (List.mem_cons_of_mem _ hk') ?_
          rw [← hq1]
          exact List.mem_map_of_mem Prod.fst h
      obtain ⟨ihlen, ihmem⟩ := ihrest hnodup.2 hfresh'
      constructor
      · rw [ihlen]
        show (mapInsert k v p.channels).length + rest.length = _
        rw [mapInsert_length k v p.channels hkfresh]
        simp only [List.length_cons]
        omega
      · intro nv hnv
        rcases List.mem_cons.mp hnv with h | h
        · rw [h]
          exact addChannels_mem_preserved rest (p.addChannel k v) (k, v)
            (mapInsert_mem_self k v p.channels) hnodup.1
        · exact ihmem nv h

/-- C10: for any parse-ordered list of (name, value) pairs with unique
names added to a fresh packet via `addChannel`, `values` is exactly the
values in parse order (one entry per extracted field, index-addressable),
but `channels` is a `QMap` that enumerates its entries sorted by name —
not in insertion order; with unique names channel and value counts agree
and every pair is present in the map. With duplicate names (not excluded
by the code) `channels` keeps one entry while `values` keeps both, so the
counts diverge. -/
theorem c10_channels_map (pairs : List (List Char × ℚ))
    (hnodup : (pairs.map Prod.fst).Nodup) :
    (addChannels emptyPacket pairs).values = pairs.map Prod.snd ∧
    List.Pairwise chanLt (addChannels emptyPacket pairs).channels ∧
    (addChannels emptyPacket pairs).channels.length =
      (addChannels emptyPacket pairs).values.length ∧
    (∀ nv ∈ pairs, nv ∈ (addChannels emptyPacket pairs).channels) := by
  obtain ⟨hv, hpw, hrest⟩ := addChannels_spec pairs emptyPacket
    (by simp [emptyPacket, blankPacket])
  obtain ⟨hlen, hmem⟩ := hrest hnodup (by simp [emptyPacket, blankPacket])
  refine ⟨by simpa [emptyPacket, blankPacket] using hv, hpw, ?_, hmem⟩
  rw [hv, hlen]
  simp [emptyPacket, blankPacket]

/-- C10 witness: adding `[("B", 1), ("A", 2)]` (names unique) to a fresh
packet gives equal channel and value counts. -/
theorem c10_witness :
    (addChannels emptyPacket [("B".toList, (1 : ℚ)), ("A".toList, 2)]).channels.length =
      (addChannels emptyPacket [("B".toList, (1 : ℚ)), ("A".toList, 2)]).values.length :=
  (c10_channels_map [("B".toList, (1 : ℚ)), ("A".toList, 2)] (by decide)).2.2.1

/-- C10 (counterexample): the emitted packet for line `"1,2"` with
channel names `["B", "A"]` enumerates `channels` as `[(A,2), (B,1)]` —
name-sorted, not parse order `[(B,1), (A,2)]`; and with duplicate names
`["A", "A"]` the packet has 1 channel but 2 values. -/
theorem c10_counterexample :
    ((loggedPackets (processLine cfgBA plainState ("1,2".toList) 0 0).events).map
      (fun p => (p.channels, p.values))) =
      [([("A".toList, (2 : ℚ)), ("B".toList, 1)], [1, 2])] ∧
    ((loggedPackets (processLine cfgAA plainState ("1,2".toList) 0 0).events).map
      (fun p => (p.channels.length, p.values.length))) = [(1, 2)] := by
  decide

theorem bucketBound_eq_floor (n m b : Nat) :
    ⌊(b : ℚ) * (((n - 2 : Nat) : ℚ) / (m : ℚ))⌋ = (bucketBound n m b : ℤ) := by
  have h : (b : ℚ) * (((n - 2 : Nat) : ℚ) / (m : ℚ)) =
      ((b * (n - 2) : Nat) : ℚ) / (m : ℚ) := by
    push_cast
    ring
  rw [h, Rat.floor_natCast_div_natCast]
  rfl

theorem bucketBound_mono (n m : Nat) (b b' : Nat) (h : b ≤ b') :
    bucketBound n m b ≤ bucketBound n m b' :=
  Nat.div_le_div_right (Nat.mul_le_mul_right _ h)

theorem bucketBound_strict (n m b : Nat) (hm : 0 < m) (hnm : m ≤ n - 2) :
    bucketBound n m b < bucketBound n m (b + 1) := by
  have h1 : b * (n - 2) + m ≤ (b + 1) * (n - 2) := by
    have : m ≤ n - 2 := hnm
    calc b * (n - 2) + m ≤ b * (n - 2) + (n - 2) := by omega
    _ = (b + 1) * (n - 2) := by ring
  calc bucketBound n m b < bucketBound n m b + 1 := Nat.lt_succ_self _
  _ = (b * (n - 2) + m) / m := (Nat.add_div_right _ hm).symm
  _ ≤ (b + 1) * (n - 2) / m := Nat.div_le_div_right h1
  _ = bucketBound n m (b + 1) := rfl

theorem bucketBound_lt (n m b : Nat) (hm : 0 < m) (hn : 2 < n) (hb : b < m) :
    bucketBound n m b < n - 2 := by
  rw [bucketBound, Nat.div_lt_iff_lt_mul hm]
  have h1 : b * (n - 2) + (n - 2) ≤ m * (n - 2) := by
    have : (b + 1) * (n - 2) ≤ m * (n - 2) := Nat.mul_le_mul_right _ hb
    calc b * (n - 2) + (n - 2) = (b + 1) * (n - 2) := by ring
    _ ≤ m * (n - 2) := this
  have h2 : (n - 2) * m = m * (n - 2) := Nat.mul_comm _ _
  omega

theorem mem_idxRange (a b i : Nat) : i ∈ idxRange a b ↔ a ≤ i ∧ i < b := by
  simp only [idxRange, List.mem_map, List.mem_range]
  constructor
  · rintro ⟨k, hk, rfl⟩
    omega
  · intro ⟨h1, h2⟩
    exact ⟨i - a, by omega, by omega⟩

theorem chain_le_getD (ts : List ℚ) (h : List.Chain' (fun a b => a ≤ b) ts)
    (i j : Nat) (hij : i ≤ j) (hj : j < ts.length) :
    ts.getD i 0 ≤ ts.getD j 0 := by
  have key : ∀ d k, k + d < ts.length → ts.getD k 0 ≤ ts.getD (k + d) 0 := by
    intro d
    induction d with
    | zero => intro k _; exact le_refl _
    | succ m ih =>
      intro k hlt
      have h1 : k + m < ts.length := by omega
      refine le_trans (ih k h1) ?_
      have hstep := List.chain'_iff_get.mp h (k + m) (by omega)
      rw [show k + (m + 1) = k + m + 1 by omega]
      rw [List.getD_eq_getElem ts 0 h1,
        List.getD_eq_getElem ts 0 (by omega : k + m + 1 < ts.length)]
      simpa using hstep
  have := key (j - i) i (by omega)
  rwa [show i + (j - i) = j by omega] at this

theorem chain_map_getD (ts : List ℚ) (h : List.Chain' (fun a b => a ≤ b) ts)
    (idxs : List Nat) (hc : List.Chain' (· < ·) idxs)
    (hb : ∀ i ∈ idxs, i < ts.length) :
    List.Chain' (fun a b => a ≤ b) (idxs.map (fun i => ts.getD i 0)) := by
  rw [List.chain'_map]
  rw [List.chain'_iff_get] at hc ⊢
  intro i hi
  have h1 := hc i hi
  exact chain_le_getD ts h _ _ (Nat.le_of_lt h1)
    (hb _ (List.get_mem idxs _ _))

theorem ltLo_lt_ltHi (n B b : Nat) (h3 : 3 ≤ B) (hn : B < n) (hb : b < B - 2) :
    ltLo n B b < ltHi n B b := by
  have hm : 0 < B - 2 := by omega
  have hnm : B - 2 ≤ n - 2 := by omega
  have h1 : bucketBound n (B - 2) b < bucketBound n (B - 2) (b + 1) :=
    bucketBound_strict n (B - 2) b hm hnm
  have h2 : bucketBound n (B - 2) b < n - 2 :=
    bucketBound_lt n (B - 2) b hm (by omega) hb
  rw [ltLo, ltHi, Nat.lt_min]
  omega

theorem ltHi_le_ltLo_succ (n B b : Nat) :
    ltHi n B b ≤ ltLo n B (b + 1) :=
  Nat.min_le_left _ _

theorem lttbSelect_bounds (ts vs : List ℚ) (prev s e : Nat) (cx cy : ℚ)
    (hse : s < e) :
    s ≤ lttbSelect ts vs prev s e cx cy ∧ lttbSelect ts vs prev s e cx cy < e := by
  rw [lttbSelect]
  have := foldl_invariant (fun acc : Nat × ℚ => s ≤ acc.1 ∧ acc.1 < e)
    (fun acc i =>
      let area := triArea (ts.getD prev 0) (vs.getD prev 0) cx cy
        (ts.getD i 0) (vs.getD i 0)
      if acc.2 < area then (i, area) else acc)
    (idxRange s e) (s, (-1 : ℚ)) ⟨le_refl s, hse⟩ ?_
  · exact this
  · intro a b ha hb
    simp only
    split
    · exact (mem_idxRange s e b).mp hb
    · exact ha

theorem lttbGo_spec (ts vs : List ℚ) (n B : Nat) (h3 : 3 ≤ B) (hn : B < n) :
    ∀ m, m ≤ B - 2 →
      (lttbGo ts vs n B m).1.length = m ∧
      List.Chain' (· < ·) (0 :: (lttbGo ts vs n B m).1) ∧
      (lttbGo ts vs n B m).2 < ltLo n B m ∧
      (0 :: (lttbGo ts vs n B m).1).getLast? = some (lttbGo ts vs n B m).2 ∧
      (∀ i ∈ (lttbGo ts vs n B m).1, i < n - 1) := by
  intro m
  induction m with
  | zero =>
    intro _
    refine ⟨rfl, List.chain'_singleton 0, ?_, rfl,
      by intro i hi; exact absurd hi (List.not_mem_nil i)⟩
    exact Nat.succ_pos _
  | succ m ih =>
    intro hm
    obtain ⟨ihlen, ihchain, ihprev, ihlast, ihbound⟩ := ih (by omega)
    have hse : ltLo n B m < ltHi n B m := ltLo_lt_ltHi n B m h3 hn (by omega)
    obtain ⟨hsel1, hsel2⟩ := lttbSelect_bounds ts vs (lttbGo ts vs n B m).2
      (ltLo n B m) (ltHi n B m)
      (lttbAvg ts vs (ltHi n B m) (ltNextHi n B m) n).1
      (lttbAvg ts vs (ltHi n B m) (ltNextHi n B m) n).2 hse
    have hstep : lttbGo ts vs n B (m + 1) =
        ((lttbGo ts vs n B m).1 ++
          [lttbSelect ts vs (lttbGo ts vs n B m).2 (ltLo n B m) (ltHi n B m)
            (lttbAvg ts vs (ltHi n B m) (ltNextHi n B m) n).1
            (lttbAvg ts vs (ltHi n B m) (ltNextHi n B m) n).2],
         lttbSelect ts vs (lttbGo ts vs n B m).2 (ltLo n B m) (ltHi n B m)
            (lttbAvg ts vs (ltHi n B m) (ltNextHi n B m) n).1
            (lttbAvg ts vs (ltHi n B m) (ltNextHi n B m) n).2) := rfl
    set sel := lttbSelect ts vs (lttbGo ts vs n B m).2 (ltLo n B m) (ltHi n B m)
      (lttbAvg ts vs (ltHi n B m) (ltNextHi n B m) n).1
      (lttbAvg ts vs (ltHi n B m) (ltNextHi n B m) n).2 with hseldef
    rw [hstep]
    have hprev_lt_sel : (lttbGo ts vs n B m).2 < sel :=
      Nat.lt_of_lt_of_le ihprev hsel1
    refine ⟨by simp [ihlen], ?_, ?_, ?_, ?_⟩
    · show List.Chain' (· < ·) ((0 :: (lttbGo ts vs n B m).1) ++ [sel])
      rw [List.chain'_append]
      refine ⟨ihchain, List.chain'_singleton sel, ?_⟩
      intro x hx y hy
      rw [ihlast] at hx
      simp only [Option.mem_def, Option.some.injEq] at hx
      simp only [List.head?_cons, Option.mem_def, Option.some.injEq] at hy
      rw [← hx, ← hy] at *
      exact hx ▸ hy ▸ hprev_lt_sel
    · exact Nat.lt_of_lt_of_le hsel2 (ltHi_le_ltLo_succ n B m)
    · show ((0 :: (lttbGo ts vs n B m).1) ++ [sel]).getLast? = some sel
      exact List.getLast?_concat _
    · intro i hi
      rcases List.mem_append.mp hi with h | h
      · exact ihbound i h
      · rw [List.mem_singleton] at h
        subst h
        exact Nat.lt_of_lt_of_le hsel2 (Nat.min_le_right _ _)

theorem lttbIndices_spec (ts vs : List ℚ) (n B : Nat) (h3 : 3 ≤ B) (hn : B < n) :
    (lttbIndices ts vs n B).length = B ∧
    List.Chain' (· < ·) (lttbIndices ts vs n B) ∧
    (∀ i ∈ lttbIndices ts vs n B, i < n) ∧
    (lttbIndices ts vs n B).head? = some 0 ∧
    (lttbIndices ts vs n B).getLast? = some (n - 1) := by
  obtain ⟨hlen, hchain, hprev, hlast, hbound⟩ :=
    lttbGo_spec ts vs n B h3 hn (B - 2) (le_refl _)
  constructor
  · simp only [lttbIndices, List.length_cons, List.length_append,
      List.length_singleton, List.length_nil, hlen]
    omega
  refine ⟨?_, ?_, rfl, ?_⟩
  · show List.Chain' (· < ·) ((0 :: (lttbGo ts vs n B (B - 2)).1) ++ [n - 1])
    rw [List.chain'_append]
    refine ⟨hchain, List.chain'_singleton _, ?_⟩
    intro x hx y hy
    rw [hlast] at hx
    simp only [Option.mem_def, Option.some.injEq] at hx
    simp only [List.head?_cons, Option.mem_def, Option.some.injEq] at hy
    subst hx
    subst hy
    have hmem : (lttbGo ts vs n B (B - 2)).2 ∈ 0 :: (lttbGo ts vs n B (B - 2)).1 := by
      obtain ⟨hne, heq⟩ := List.mem_getLast?_eq_getLast hlast
      rw [heq]
      exact List.getLast_mem hne
    rcases List.mem_cons.mp hmem with h | h
    · omega
    · have := hbound _ h
      omega
  · intro i hi
    rcases List.mem_cons.mp hi with h | h
    · omega
    · rcases List.mem_append.mp h with h2 | h2
      · have := hbound i h2
        omega
      · rw [List.mem_singleton] at h2
        omega
  · show ((0 :: (lttbGo ts vs n B (B - 2)).1) ++ [n - 1]).getLast? = some (n - 1)
    exact List.getLast?_concat _

theorem mmLo_lt_mmHi (n B b : Nat) (h3 : 3 ≤ B) (hn : B < n) (hb : b < B / 2) :
    mmLo n B b < mmHi n B b := by
  have hm : 0 < B / 2 := by omega
  have hnm : B / 2 ≤ n - 2 := by omega
  have h1 : bucketBound n (B / 2) b < bucketBound n (B / 2) (b + 1) :=
    bucketBound_strict n (B / 2) b hm hnm
  have h2 : bucketBound n (B / 2) b < n - 2 :=
    bucketBound_lt n (B / 2) b hm (by omega) hb
  rw [mmLo, mmHi, Nat.lt_min]
  omega

theorem mmHi_le_mmLo_succ (n B b : Nat) :
    mmHi n B b ≤ mmLo n B (b + 1) :=
  Nat.min_le_left _ _

theorem mmLo_mono (n B : Nat) (b b' : Nat) (h : b ≤ b') :
    mmLo n B b ≤ mmLo n B b' := by
  have := bucketBound_mono n (B / 2) b b' h
  simp only [mmLo]
  omega

theorem mmScan_bounds (vs : List ℚ) (lo hi : Nat) (idxs : List Nat)
    (hidx : ∀ i ∈ idxs, lo ≤ i ∧ i < hi)
    (acc : (Nat × ℚ) × (Nat × ℚ))
    (hacc : (lo ≤ acc.1.1 ∧ acc.1.1 < hi) ∧ (lo ≤ acc.2.1 ∧ acc.2.1 < hi)) :
    (lo ≤ (mmScan vs idxs acc).1.1 ∧ (mmScan vs idxs acc).1.1 < hi) ∧
    (lo ≤ (mmScan vs idxs acc).2.1 ∧ (mmScan vs idxs acc).2.1 < hi) := by
  rw [mmScan]
  refine foldl_invariant
    (fun a : (Nat × ℚ) × (Nat × ℚ) => (lo ≤ a.1.1 ∧ a.1.1 < hi) ∧ (lo ≤ a.2.1 ∧ a.2.1 < hi))
    _ idxs acc hacc ?_
  intro a i ha hi
  simp only
  constructor
  · split
    · exact hidx i hi
    · exact ha.1
  · split
    · exact hidx i hi
    · exact ha.2

theorem mmBucket_spec (vs : List ℚ) (n B b : Nat)
    (h3 : 3 ≤ B) (hn : B < n) (hb : b < B / 2) :
    (mmBucket vs n B b).length ≤ 2 ∧
    List.Chain' (· < ·) (mmBucket vs n B b) ∧
    (∀ i ∈ mmBucket vs n B b, mmLo n B b ≤ i ∧ i < mmHi n B b) := by
  have hse : mmLo n B b < mmHi n B b := mmLo_lt_mmHi n B b h3 hn hb
  have hscan := mmScan_bounds vs (mmLo n B b) (mmHi n B b)
    (idxRange (mmLo n B b + 1) (mmHi n B b))
    (by intro i hi
        have := (mem_idxRange _ _ i).mp hi
        omega)
    ((mmLo n B b, vs.getD (mmLo n B b) 0), (mmLo n B b, vs.getD (mmLo n B b) 0))
    ⟨⟨le_refl _, hse⟩, ⟨le_refl _, hse⟩⟩
  rw [mmBucket]
  simp only [if_neg (Nat.not_le.mpr hse)]
  set r := mmScan vs (idxRange (mmLo n B b + 1) (mmHi n B b))
    ((mmLo n B b, vs.getD (mmLo n B b) 0), (mmLo n B b, vs.getD (mmLo n B b) 0)) with hr
  by_cases hle : r.1.1 ≤ r.2.1
  · by_cases heq : r.1.1 = r.2.1
    · simp only [if_pos hle, if_pos heq]
      refine ⟨by simp, List.chain'_singleton _, ?_⟩
      intro i hi
      rw [List.mem_singleton] at hi
      subst hi
      exact hscan.1
    · simp only [if_pos hle, if_neg heq]
      refine ⟨by simp, ?_, ?_⟩
      · exact List.chain'_pair.mpr (by omega)
      · intro i hi
        rcases List.mem_cons.mp hi with h | h
        · subst h; exact hscan.1
        · rw [List.mem_singleton] at h
          subst h; exact hscan.2
  · simp only [if_neg hle]
    refine ⟨by simp, ?_, ?_⟩
    · exact List.chain'_pair.mpr (by omega)
    · intro i hi
      rcases List.mem_cons.mp hi with h | h
      · subst h; exact hscan.2
      · rw [List.mem_singleton] at h
        subst h; exact hscan.1

theorem mmGo_spec (vs : List ℚ) (n B : Nat) (h3 : 3 ≤ B) (hn : B < n) :
    ∀ m, m ≤ B / 2 →
      (mmGo vs n B m).length ≤ 2 * m ∧
      List.Chain' (· < ·) (0 :: mmGo vs n B m) ∧
      (∀ i ∈ mmGo vs n B m, i < mmLo n B m ∧ i < n - 1) := by
  intro m
  induction m with
  | zero =>
    intro _
    exact ⟨by simp [mmGo], List.chain'_singleton 0,
      by intro i hi; exact absurd hi (List.not_mem_nil i)⟩
  | succ m ih =>
    intro hm
    obtain ⟨ihlen, ihchain, ihbound⟩ := ih (by omega)
    obtain ⟨hblen, hbchain, hbbound⟩ := mmBucket_spec vs n B m h3 hn (by omega)
    have hstep : mmGo vs n B (m + 1) = mmGo vs n B m ++ mmBucket vs n B m := rfl
    rw [hstep]
    refine ⟨?_, ?_, ?_⟩
    · simp only [List.length_append]
      omega
    · show List.Chain' (· < ·) ((0 :: mmGo vs n B m) ++ mmBucket vs n B m)
      rw [List.chain'_append]
      refine ⟨ihchain, hbchain, ?_⟩
      intro x hx y hy
      obtain ⟨hne, heq⟩ := List.mem_getLast?_eq_getLast hx
      have hxmem : x ∈ 0 :: mmGo vs n B m := heq ▸ List.getLast_mem hne
      have hymem : y ∈ mmBucket vs n B m := List.mem_of_mem_head? hy
      have hy1 : mmLo n B m ≤ y := (hbbound y hymem).1
      rcases List.mem_cons.mp hxmem with h | h
      · subst h
        have : 0 < mmLo n B m := by rw [mmLo]; omega
        omega
      · have := (ihbound x h).1
        omega
    · intro i hi
      rcases List.mem_append.mp hi with h | h
      · have h1 := ihbound i h
        have h2 : mmLo n B m ≤ mmLo n B (m + 1) := mmLo_mono n B m (m + 1) (by omega)
        exact ⟨by omega, h1.2⟩
      · have h1 := hbbound i h
        have h2 : mmHi n B m ≤ mmLo n B (m + 1) := mmHi_le_mmLo_succ n B m
        have h3 : mmHi n B m ≤ n - 1 := Nat.min_le_right _ _
        exact ⟨by omega, by omega⟩

theorem minMaxIndices_spec (vs : List ℚ) (n B : Nat) (h3 : 3 ≤ B) (hn : B < n) :
    (minMaxIndices vs n B).length ≤ B + 2 ∧
    List.Chain' (· < ·) (minMaxIndices vs n B) ∧
    (∀ i ∈ minMaxIndices vs n B, i < n) ∧
    (minMaxIndices vs n B).head? = some 0 ∧
    (minMaxIndices vs n B).getLast? = some (n - 1) := by
  obtain ⟨hlen, hchain, hbound⟩ := mmGo_spec vs n B h3 hn (B / 2) (le_refl _)
  constructor
  · simp only [minMaxIndices, List.length_cons, List.length_append,
      List.length_singleton, List.length_nil]
    omega
  refine ⟨?_, ?_, rfl, ?_⟩
  · show List.Chain' (· < ·) ((0 :: mmGo vs n B (B / 2)) ++ [n - 1])
    rw [List.chain'_append]
    refine ⟨hchain, List.chain'_singleton _, ?_⟩
    intro x hx y hy
    obtain ⟨hne, heq⟩ := List.mem_getLast?_eq_getLast hx
    have hxmem : x ∈ 0 :: mmGo vs n B (B / 2) := heq ▸ List.getLast_mem hne
    simp only [List.head?_cons, Option.mem_def, Option.some.injEq] at hy
    subst hy
    rcases List.mem_cons.mp hxmem with h | h
    · omega
    · exact (hbound x h).2
  · intro i hi
    rcases List.mem_cons.mp hi with h | h
    · omega
    · rcases List.mem_append.mp h with h2 | h2
      · have := (hbound i h2).2
        omega
      · rw [List.mem_singleton] at h2
        omega
  · show ((0 :: mmGo vs n B (B / 2)) ++ [n - 1]).getLast? = some (n - 1)
    exact List.getLast?_concat _

theorem head?_map_getD (ts : List ℚ) (idxs : List Nat)
    (h : idxs.head? = some 0) (hne : ts ≠ []) :
    (idxs.map (fun i => ts.getD i 0)).head? = ts.head? := by
  cases idxs with
  | nil => simp at h
  | cons a l =>
    simp only [List.head?_cons, Option.some.injEq] at h
    subst h
    cases ts with
    | nil => exact absurd rfl hne
    | cons t ts' => simp [List.getD_cons_zero]

theorem getLast?_map_getD (ts : List ℚ) (idxs : List Nat)
    (h : idxs.getLast? = some (ts.length - 1)) (hne : ts ≠ []) :
    (idxs.map (fun i => ts.getD i 0)).getLast? = ts.getLast? := by
  rw [List.getLast?_map, h]
  rw [List.getLast?_eq_getLast_of_ne_nil hne]
  have hlt : ts.length - 1 < ts.length := by
    cases ts with
    | nil => exact absurd rfl hne
    | cons t ts' => simp
  simp only [Option.map_some', Option.some.injEq]
  rw [List.getD_eq_getElem ts 0 hlt, List.getLast_eq_getElem]

/-- C3: for any parallel series `(ts, vs)` with non-decreasing timestamps
and length over the point budget `B` (with `3 ≤ B`), LTTB returns exactly
`B` points and Min-Max returns at most `B + 2` points — `B / 2` buckets
emitting up to two points each, plus the two endpoints, so Min-Max may
EXCEED the budget (the spec's `≤ budget` bound fails).  Both algorithms
preserve the first and last element of each series exactly and output
timestamps in non-decreasing order. -/
theorem c3_downsampling (ts vs : List ℚ) (B : Nat)
    (hlen : vs.length = ts.length) (h3 : 3 ≤ B) (hB : B < ts.length)
    (hts : List.Chain' (fun a b => a ≤ b) ts) :
    ((lttbDownsample ts vs B).1.length = B ∧
     (lttbDownsample ts vs B).2.length = B ∧
     (lttbDownsample ts vs B).1.head? = ts.head? ∧
     (lttbDownsample ts vs B).1.getLast? = ts.getLast? ∧
     (lttbDownsample ts vs B).2.head? = vs.head? ∧
     (lttbDownsample ts vs B).2.getLast? = vs.getLast? ∧
     List.Chain' (fun a b => a ≤ b) (lttbDownsample ts vs B).1) ∧
    ((minMaxDownsample ts vs B).1.length ≤ B + 2 ∧
     (minMaxDownsample ts vs B).1.length = (minMaxDownsample ts vs B).2.length ∧
     (minMaxDownsample ts vs B).1.head? = ts.head? ∧
     (minMaxDownsample ts vs B).1.getLast? = ts.getLast? ∧
     (minMaxDownsample ts vs B).2.head? = vs.head? ∧
     (minMaxDownsample ts vs B).2.getLast? = vs.getLast? ∧
     List.Chain' (fun a b => a ≤ b) (minMaxDownsample ts vs B).1) := by
  have hne : ts ≠ [] := by
    intro h
    rw [h] at hB
    simp at hB
  have hnev : vs ≠ [] := by
    intro h
    rw [h] at hlen
    simp at hlen
    omega
  obtain ⟨l1, l2, l3, l4, l5⟩ := lttbIndices_spec ts vs ts.length B h3 hB
  obtain ⟨m1, m2, m3, m4, m5⟩ := minMaxIndices_spec vs ts.length B h3 hB
  constructor
  · refine ⟨?_, ?_, ?_, ?_, ?_, ?_, ?_⟩
    · show ((lttbIndices ts vs ts.length B).map (fun i => ts.getD i 0)).length = B
      rw [List.length_map]
      exact l1
    · show ((lttbIndices ts vs ts.length B).map (fun i => vs.getD i 0)).length = B
      rw [List.length_map]
      exact l1
    · exact head?_map_getD ts _ l4 hne
    · exact getLast?_map_getD ts _ l5 hne
    · exact head?_map_getD vs _ l4 hnev
    · exact getLast?_map_getD vs _ (by rw [hlen]; exact l5) hnev
    · exact chain_map_getD ts hts _ l2 l3
  · refine ⟨?_, ?_, ?_, ?_, ?_, ?_, ?_⟩
    · show ((minMaxIndices vs ts.length B).map (fun i => ts.getD i 0)).length ≤ B + 2
      rw [List.length_map]
      exact m1
    · show ((minMaxIndices vs ts.length B).map (fun i => ts.getD i 0)).length =
        ((minMaxIndices vs ts.length B).map (fun i => vs.getD i 0)).length
      rw [List.length_map, List.length_map]
    · exact head?_map_getD ts _ m4 hne
    · exact getLast?_map_getD ts _ m5 hne
    · exact head?_map_getD vs _ m4 hnev
    · exact getLast?_map_getD vs _ (by rw [hlen]; exact m5) hnev
    · exact chain_map_getD ts hts _ m2 m3

/-- C3 witness: on the 6-point series with budget `B = 4`, LTTB yields
exactly 4 points and Min-Max at most 6. -/
theorem c3_witness :
    (lttbDownsample [0, 1, 2, 3, 4, 5] [5, 1, 4, 2, 3, 0] 4).1.length = 4 ∧
    (minMaxDownsample [0, 1, 2, 3, 4, 5] [5, 1, 4, 2, 3, 0] 4).1.length ≤ 4 + 2 :=
  ⟨(c3_downsampling [0, 1, 2, 3, 4, 5] [5, 1, 4, 2, 3, 0] 4 rfl (by decide)
      (by decide)
      (by simp only [List.chain'_cons, List.chain'_singleton, and_true]; decide)).1.1,
   (c3_downsampling [0, 1, 2, 3, 4, 5] [5, 1, 4, 2, 3, 0] 4 rfl (by decide)
      (by decide)
      (by simp only [List.chain'_cons, List.chain'_singleton, and_true]; decide)).2.1⟩

/-- C3 (counterexample): on a 6-point series with budget `B = 4`,
Min-Max emits more than `B` points (2 buckets x 2 points + 2 endpoints
= 6 > 4), refuting the spec's claim that the output length is at most
the budget. -/
theorem c3_counterexample :
    4 < (minMaxDownsample [0, 1, 2, 3, 4, 5] [5, 1, 4, 2, 3, 0] 4).1.length := by
  decide

end ComStudio
